import Mathlib

/-!
Verification development for the dragonsweepyr dungeon generator.

This file shallowly embeds the layered placement and local-search
optimization engine of the repository:

* `src/dragonsweepyr/monsters/tiles.py`  (BoardTile, TileID)
* `src/dragonsweepyr/utils.py`           (geometry helpers)
* `src/dragonsweepyr/happiness.py`       (the scorer)
* `src/dragonsweepyr/dungeon.py`         (Floor, add_tile, _swap_tiles,
                                          post_process_layer)

Modelling conventions:

* Python object identity is modelled by a `uid : Nat` field on tiles;
  every tile object ever created carries a distinct uid (fresh uids are
  drawn from a `nextUid` counter on the floor).  `a == b` / `a is b`
  between tile objects is rendered as `a.uid = b.uid`; in-place mutation
  of a tile object is rendered by updating every grid slot holding a
  record with that uid.
* Euclidean distance comparisons `distance(..) <= r` are exact for the
  radii the source uses (1, 1.5, 2, 2.5); they are encoded over the
  integers as `4 * dist_sq <= (2*r)^2`, passing `2*r` as a natural
  number.  The strict comparison `dist < 1.5` becomes `4 * dist_sq < 9`.
* `random.choice` / `random.shuffle` consume draws from an injected
  stream `rng : List Nat` (an arbitrary draw list; `random.choice` over
  a list of length `n` uses the draw modulo `n`).
* Presentation-only tile attributes (sprite strips, rects, wall HP,
  `contains` payload, ...) are omitted: the scorer and the placement
  engine never read them.
-/

-- TileID constants from `monsters/tiles.py` (a dataclass of ints).
namespace TileID

def NaN : Int := -1

def Empty : Int := 0

def Orb : Int := 1

def SpellMakeOrb : Int := 2

def Mine : Int := 3

def MineKing : Int := 4

def Dragon : Int := 5

def Wall : Int := 6

def Mimic : Int := 7

def Medikit : Int := 8

def RatKing : Int := 9

def Rat : Int := 10

def Slime : Int := 11

def Gargoyle : Int := 12

def Minotaur : Int := 13

def Chest : Int := 14

def Skeleton : Int := 15

def Treasure : Int := 16

def Snake : Int := 17

def Giant : Int := 18

def Decoration : Int := 19

def Wizard : Int := 20

def Gazer : Int := 21

def SpellDisarm : Int := 22

def BigSlime : Int := 23

def SpellRevealRats : Int := 24

def SpellRevealSlimes : Int := 25

def Gnome : Int := 26

def Bat : Int := 27

def Guard : Int := 28

def Crown : Int := 29

def Fidel : Int := 30

def DragonEgg : Int := 31

def Death : Int := 32

def DarkKnight : Int := 33

def Eye : Int := 34

end TileID

/-- Grid width from `config.py` (`GameConfig.grid_columns = 13`). -/
def grid_columns : Nat := 13

/-- Grid height from `config.py` (`GameConfig.grid_rows = 10`). -/
def grid_rows : Nat := 10

/-- From `utils.py`: `is_center(tx, ty)`, using the global config grid. -/
def is_center (tx ty : Nat) : Bool :=
  grid_columns / 2 == tx && ty == grid_rows / 2

/-- From `utils.py`: `is_close_to_edge(tx, ty)`. -/
def is_close_to_edge (tx ty : Nat) : Bool :=
  tx ≤ 1 || ty ≤ 1 || tx ≥ grid_columns - 2 || ty ≥ grid_rows - 2

/-- From `utils.py`: `is_corner(tx, ty)`. -/
def is_corner (tx ty : Nat) : Bool :=
  (tx == 0 && ty == 0) || (tx == grid_columns - 1 && ty == 0) ||
  (tx == 0 && ty == grid_rows - 1) || (tx == grid_columns - 1 && ty == grid_rows - 1)

/-- From `utils.py`: `is_edge(tx, ty)`. -/
def is_edge (tx ty : Nat) : Bool :=
  tx == 0 || ty == 0 || tx == grid_columns - 1 || ty == grid_rows - 1

/-- Squared difference of two naturals ((a-b)^2 computed without Int). -/
def diff_sq (a b : Nat) : Nat :=
  (a - b) * (a - b) + (b - a) * (b - a)

/-- Squared Euclidean distance between two cells; `utils.py`'s `distance`
squared.  All distance comparisons in the source are against constant
radii and are decided exactly on the squares. -/
def dist_sq (x1 y1 x2 y2 : Nat) : Nat :=
  diff_sq x1 x2 + diff_sq y1 y2

/-- Exact rendering of `distance(x1,y1,x2,y2) <= t/2` (the radius is
passed doubled so that 1.5 and 2.5 stay integral). -/
def near_sq (x1 y1 x2 y2 : Nat) (t : Nat) : Bool :=
  4 * dist_sq x1 y1 x2 y2 ≤ t * t

/-- A board tile, from `BoardTile.__init__` in `monsters/tiles.py`.
`uid` models Python object identity (see the header); the remaining
fields are the attributes the engine and the scorer read. -/
structure BoardTile where
  uid : Nat
  tx : Nat
  ty : Nat
  id : Int
  fixed : Bool
  name : String
  revealed : Bool
  monster_level : Int
  xp : Int
deriving DecidableEq, Repr

/-- A freshly constructed `BoardTile()` with the given identity:
`tx = ty = 0`, `id = Empty`, `fixed = False`, `name = "none"`. -/
def BoardTile.blank (uid : Nat) : BoardTile :=
  { uid := uid, tx := 0, ty := 0, id := TileID.Empty, fixed := false,
    name := "none", revealed := false, monster_level := 0, xp := 0 }

/-- `BoardTile.is_near(other, dist)` from `monsters/tiles.py`
(`distance(self.tx, self.ty, other.tx, other.ty) <= dist`); the radius
is passed doubled. -/
def BoardTile.is_near (t other : BoardTile) (twice_dist : Nat) : Bool :=
  near_sq t.tx t.ty other.tx other.ty twice_dist

/-- Per-class `satisfaction()` from `monsters/creatures.py` and
`monsters/items.py`, dispatched by tile id.  Classes that fall through
to `BoardTile.satisfaction` contribute 0 (no `_satisfaction_func` is
installed on the `add_tile` construction path).  For a `Guard` whose
name is not guard1..guard4 the source raises `ValueError`; that branch
is unreachable in generation and is rendered as 0. -/
def BoardTile.satisfaction (t : BoardTile) : Int :=
  if t.id = TileID.Dragon then (if is_center t.tx t.ty then 10000 else 0)
  else if t.id = TileID.Fidel then (if is_corner t.tx t.ty then 9000 else 0)
  else if t.id = TileID.MineKing then (if is_corner t.tx t.ty then 10000 else 0)
  else if t.id = TileID.Wizard then
    (if is_edge t.tx t.ty && !is_corner t.tx t.ty then 10000 else 0)
  else if t.id = TileID.Orb then (if is_close_to_edge t.tx t.ty then -10000 else 0)
  else if t.id = TileID.Guard then
    (if t.name = "guard1" then (if t.tx < 6 && t.ty < 4 then 2500 else 0)
     else if t.name = "guard2" then (if t.tx > 6 && t.ty < 4 then 2500 else 0)
     else if t.name = "guard3" then (if t.tx > 6 && t.ty > 4 then 2500 else 0)
     else if t.name = "guard4" then (if t.tx < 6 && t.ty > 4 then 2500 else 0)
     else 0)
  else 0

/-- The floor state, from `Floor.__init__` in `dungeon.py`: grid
dimensions, the 2D tile array, the populated-coordinate registry (a
Python set, modelled as an insertion-ordered duplicate-free list of
`(x, y)` pairs), and the cached satisfaction score.  `nextUid` is the
model's fresh-object-identity counter (see the header). -/
structure Floor where
  width : Nat
  height : Nat
  tiles : List (List BoardTile)
  populated : List (Nat × Nat)
  satisfaction : Int
  nextUid : Nat
deriving DecidableEq, Repr

/-- `Floor(width, height)`: a grid of freshly constructed empty tiles
(each cell its own object), no populated coordinates, satisfaction 0. -/
def Floor.init (width height : Nat) : Floor :=
  { width := width, height := height,
    tiles := (List.range height).map fun y =>
      (List.range width).map fun x => BoardTile.blank (y * width + x),
    populated := [], satisfaction := 0, nextUid := height * width }

/-- Read `self.tiles[y][x]` (defined for in-bounds indices; the source
raises `IndexError` out of bounds, and every theorem below only touches
in-bounds slots). -/
def Floor.slot (f : Floor) (x y : Nat) : BoardTile :=
  ((f.tiles.getD y []).getD x (BoardTile.blank 0))

/-- Write `self.tiles[y][x] = t` (a no-op out of bounds, where the
source would raise). -/
def Floor.setSlot (f : Floor) (x y : Nat) (t : BoardTile) : Floor :=
  { f with tiles := f.tiles.set y ((f.tiles.getD y []).set x t) }

/-- All grid cells in row-major order (the iteration order of
`for row in self.tiles: for tile in row`). -/
def Floor.allSlots (f : Floor) : List BoardTile :=
  f.tiles.flatten

/-- `Floor.all_tiles`: the tiles registered at populated coordinates,
in registry order (`self.tiles[coord[1]][coord[0]]` per coordinate). -/
def Floor.all_tiles (f : Floor) : List BoardTile :=
  f.populated.map fun c => f.slot c.1 c.2

/-- `Floor.get_tile_at(x, y)`: the tile at a coordinate, `None` when
out of bounds. -/
def Floor.get_tile_at (f : Floor) (x y : Nat) : Option BoardTile :=
  if x < f.width && y < f.height then some (f.slot x y) else none

/-- First tile of a given id, scanning the grid row-major.
`happiness.py` calls this `current_board.get_tile`; `dungeon.py` names
it `get_tile_id` with the same find-first contract (spec section 4.1:
`find_first(entity_type) -> Tile | none`). -/
def Floor.get_tile (f : Floor) (tile_id : Int) : Option BoardTile :=
  f.allSlots.find? fun t => t.id == tile_id

/-- `Floor.get_tile_list(tile_id)`: all grid cells with the given id,
row-major. -/
def Floor.get_tile_list (f : Floor) (tile_id : Int) : List BoardTile :=
  f.allSlots.filter fun t => t.id == tile_id

/-- `Floor.get_tiles_in_radius(cx, cy, r)`: every grid cell (empty
cells included, as in the source) whose stored coordinates are within
Euclidean distance `r` of the center, skipping cells whose stored
coordinates equal the center.  The radius is passed doubled. -/
def Floor.get_tiles_in_radius (f : Floor) (cx cy : Nat) (twice_r : Nat) : List BoardTile :=
  f.allSlots.filter fun t =>
    !(t.tx == cx && t.ty == cy) && near_sq t.tx t.ty cx cy twice_r

/-- `Floor.is_populated(x, y)`. -/
def Floor.is_populated (f : Floor) (x y : Nat) : Bool :=
  f.populated.contains (x, y)

/-- `Floor.set_populated(x, y, is_populated)`: bounds-checked add or
discard on the registry (the set is modelled in insertion order). -/
def Floor.set_populated (f : Floor) (x y : Nat) (is_pop : Bool) : Floor :=
  if x < f.width && y < f.height then
    if is_pop then
      (if f.populated.contains (x, y) then f
       else { f with populated := f.populated ++ [(x, y)] })
    else { f with populated := f.populated.filter (fun c => c ≠ (x, y)) }
  else f

/-- `count_identical_neighbors(board, tile, radius)` from
`happiness.py`: occupied-or-not grid cells of the same id inside the
square window of the given radius, excluding the tile's own
coordinate. -/
def count_identical_neighbors (f : Floor) (t : BoardTile) (radius : Nat) : Nat :=
  let ylo := t.ty - radius
  let yhi := min f.height (t.ty + radius + 1)
  let xlo := t.tx - radius
  let xhi := min f.width (t.tx + radius + 1)
  ((List.range (yhi - ylo)).map (ylo + ·)).foldl
    (fun acc y =>
      ((List.range (xhi - xlo)).map (xlo + ·)).foldl
        (fun acc2 x =>
          if (x, y) ≠ (t.tx, t.ty) then
            match f.get_tile_at x y with
            | some n => if n.id = t.id then acc2 + 1 else acc2
            | none => acc2
          else acc2)
        acc)
    0

/-- `count_within_distance(board, (sx, sy), target_id, max_distance)`
from `happiness.py`: populated tiles of the target id within the
(doubled) distance of the source position. -/
def count_within_distance (f : Floor) (sx sy : Nat) (target_id : Int) (twice_d : Nat) : Nat :=
  (f.all_tiles.filter fun t => t.id == target_id && near_sq sx sy t.tx t.ty twice_d).length

/-- The forbidden-reveal id set from `orb_happiness` in `happiness.py`. -/
def forbidden_reveals : List Int :=
  [TileID.Dragon, TileID.Gazer, TileID.Chest, TileID.SpellMakeOrb,
   TileID.RatKing, TileID.Mine, TileID.Fidel, TileID.DragonEgg,
   TileID.BigSlime, TileID.Mimic]

/-- Modelled from the spec: the module `dragonsweepyr.const` (providing
`ORB_RADIUS`) is not under `src/`; the spec describes the orb rule only
as a fixed exclusion/count radius without pinning the value.  The
radius is taken as 2.5 (doubled here to 5); no claim below depends on
the numeric choice. -/
def ORB_RADIUS_X2 : Nat := 5

/-- `orb_happiness(orb, board)` from `happiness.py`. -/
def orb_happiness (orb : BoardTile) (f : Floor) : Int :=
  let medikits_in_range := count_within_distance f orb.tx orb.ty TileID.Medikit ORB_RADIUS_X2
  let walls_in_range := count_within_distance f orb.tx orb.ty TileID.Wall ORB_RADIUS_X2
  (if medikits_in_range == 1 && walls_in_range > 0 then 2000 else 0) +
  (if walls_in_range > 2 then ((walls_in_range : Int) - 2) * (-2000) else 0) +
  ((f.get_tiles_in_radius orb.tx orb.ty ORB_RADIUS_X2).foldl
    (fun s t => if forbidden_reveals.contains t.id then s + (-2000) else s) 0)

/-- Accumulator of the neighbor scan inside the `Wall` branch of
`happiness` (`close_count`, `far_count`, `on_edge`, and whether the
loop has hit one of its `break` conditions). -/
structure WallScan where
  close_count : Nat
  far_count : Nat
  on_edge : Nat
  broken : Bool
deriving DecidableEq, Repr

/-- One iteration of the `Wall` branch's neighbor loop: skip the tile
itself (`is` identity) and non-wall neighbors, break once
`on_edge >= 2`, `far_count > 0` or `close_count > 1`, otherwise count
the neighbor by distance (`<= 1` close, `< 1.5` far). -/
def wall_scan_step (t : BoardTile) (acc : WallScan) (n : BoardTile) : WallScan :=
  if acc.broken then acc
  else if n.uid == t.uid then acc
  else if n.id != TileID.Wall then acc
  else if acc.on_edge ≥ 2 || acc.far_count > 0 || acc.close_count > 1 then
    { acc with broken := true }
  else
    let d4 := 4 * dist_sq t.tx t.ty n.tx n.ty
    if d4 ≤ 4 then
      { acc with close_count := acc.close_count + 1
                 on_edge := acc.on_edge + (if is_edge n.tx n.ty then 1 else 0) }
    else if d4 < 9 then { acc with far_count := acc.far_count + 1 }
    else acc

/-- The full neighbor scan of the `Wall` branch over `all_tiles`
(`on_edge` starts at 1 when the wall itself sits on an edge).  Its
result is computed and then dropped by the branch, exactly as in the
source, where the counters feed no score term. -/
def wall_scan (f : Floor) (t : BoardTile) : WallScan :=
  f.all_tiles.foldl (wall_scan_step t)
    { close_count := 0, far_count := 0,
      on_edge := if is_edge t.tx t.ty then 1 else 0, broken := false }

/-- The `match tile.id:` dispatch inside the scorer's per-tile loop
(`happiness.py` lines 28-162): the relational score added for one tile
beyond `tile.satisfaction()`. -/
def happiness_case (f : Floor) (t : BoardTile) : Int :=
  if t.id = TileID.BigSlime then
    match f.get_tile TileID.Wizard with
    | none => 0
    | some wizard => if t.is_near wizard 3 then 1000 else 0
  else if t.id = TileID.DragonEgg then
    match f.get_tile TileID.Dragon with
    | none => 0
    | some dragon => if t.is_near dragon 3 then 9000 else 0
  else if t.id = TileID.Fidel then 0
  else if t.id = TileID.Gargoyle then
    match (f.get_tile_list TileID.Gargoyle).find?
        (fun g => g.uid != t.uid && g.name == t.name) with
    | none => 0
    | some twin => if t.is_near twin 3 then 1000 else 0
  else if t.id = TileID.Giant then
    match (f.get_tile_list TileID.Giant).find? (fun g => g.uid != t.uid) with
    | none => 0
    | some my_love =>
      (if (t.name == "romeo" && t.tx ≤ 5) || (t.name == "juliet" && t.tx ≥ 7)
       then 1000 else 0) +
      -- `abs(tx - cols/2) == abs(love.tx - cols/2)` with the true
      -- division by 2 cleared: compare |2*tx - cols| with |2*love.tx - cols|.
      (if t.ty == my_love.ty &&
          (2 * (t.tx : Int) - (grid_columns : Int)).natAbs ==
          (2 * (my_love.tx : Int) - (grid_columns : Int)).natAbs
       then 10000 else 0)
  else if t.id = TileID.Gnome then
    let medkit_tiles := f.get_tile_list TileID.Medikit
    if medkit_tiles.isEmpty then 0
    else if medkit_tiles.any (fun m => t.is_near m 3) then 10000 else 0
  else if t.id = TileID.Minotaur then
    let other_minotaurs := (f.get_tile_list TileID.Minotaur).filter
      (fun m => m.uid != t.uid)
    if !other_minotaurs.isEmpty && other_minotaurs.any (fun m => t.is_near m 4)
    then 0
    else
      let chest_tiles := f.get_tile_list TileID.Chest
      if chest_tiles.isEmpty then 0
      else if chest_tiles.countP (fun c => t.is_near c 4) = 1 then 10000 else 0
  else if t.id = TileID.Rat then
    if !(t.name.endsWith "_guard") then 0
    else
      match f.get_tile TileID.RatKing with
      | none => 0
      | some rat_king =>
        if t.is_near rat_king 2 && t.ty == rat_king.ty then 1000 else 0
  else if t.id = TileID.Chest then
    -1000 * (count_identical_neighbors f t 3 : Int)
  else if t.id = TileID.Medikit then
    -1000 * (count_identical_neighbors f t 4 : Int)
  else if t.id = TileID.Wall then
    -- The branch runs the neighbor scan and then unconditionally adds
    -- a flat 2000: the counters feed no score term in the source.
    let _scan := wall_scan f t
    2000
  else if t.id = TileID.Orb then orb_happiness t f
  else 0

/-- `happiness(current_board)` from `happiness.py`: over every
populated tile, add `tile.satisfaction()` plus the per-id relational
dispatch. -/
def happiness (f : Floor) : Int :=
  f.all_tiles.foldl (fun acc t => acc + t.satisfaction + happiness_case f t) 0

/-- Keyword overrides accepted by `add_tile` (its docstring lists
`monster_level`, `name`, `contains`, `revealed`; `contains` is a
presentation payload the engine never reads and is omitted, `xp` is
included for the `Treasure` call sites).  Each constructor is one
`setattr(tile, key, value)` on an attribute the tile has. -/
inductive Kwarg where
  | name (v : String)
  | revealed (v : Bool)
  | monster_level (v : Int)
  | xp (v : Int)
deriving DecidableEq, Repr

/-- Apply one keyword override. -/
def apply_kwarg (t : BoardTile) : Kwarg → BoardTile
  | .name v => { t with name := v }
  | .revealed v => { t with revealed := v }
  | .monster_level v => { t with monster_level := v }
  | .xp v => { t with xp := v }

/-- Apply keyword overrides in order (the `for key, value in
kwargs.items()` loop). -/
def apply_kwargs (t : BoardTile) (kwargs : List Kwarg) : BoardTile :=
  kwargs.foldl apply_kwarg t

/-- Map a function over every grid cell (used to model in-place
mutation of tile objects through whatever slot holds them). -/
def Floor.mapGrid (f : Floor) (g : BoardTile → BoardTile) : Floor :=
  { f with tiles := f.tiles.map fun row => row.map g }

/-- The coordinate mutation of `_swap_tiles` lines 83-84: the objects
`a` and `b` exchange their `tx`/`ty` attributes, wherever those objects
are stored. -/
def coord_swap_update (a b : BoardTile) (r : BoardTile) : BoardTile :=
  if r.uid == a.uid then { r with tx := b.tx, ty := b.ty }
  else if r.uid == b.uid then { r with tx := a.tx, ty := a.ty }
  else r

/-- `Floor._swap_tiles(tile_a, tile_b)` from `dungeon.py`: exchange the
grid slots indexed by the two tiles' stored coordinates (both right
sides read before either write, as in the tuple assignment), then swap
the two objects' coordinate attributes.  Returns the floor together
with the post-call states of the two tile objects. -/
def Floor.swap_tiles (f : Floor) (a b : BoardTile) : Floor × BoardTile × BoardTile :=
  let ta := f.slot a.tx a.ty
  let tb := f.slot b.tx b.ty
  let g1 := f.setSlot a.tx a.ty tb
  let g2 := g1.setSlot b.tx b.ty ta
  let g3 := g2.mapGrid (coord_swap_update a b)
  (g3, { a with tx := b.tx, ty := b.ty }, { b with tx := a.tx, ty := a.ty })

/-- The `empty_positions` comprehension in `add_tile`:
`[(x, y) for y in range(height) for x in range(width) if not populated]`. -/
def Floor.empty_positions (f : Floor) : List (Nat × Nat) :=
  ((List.range f.height).flatMap fun y =>
    (List.range f.width).map fun x => (x, y)).filter
    fun c => !(f.is_populated c.1 c.2)

/-- `Floor.add_tile(tile_class, count, **kwargs)` from `dungeon.py`:
`count` times, list the empty positions (stop silently when none is
left), draw one uniformly (`random.choice`, one stream draw modulo the
list length), instantiate the prototype as a fresh object, set its
position, apply the keyword overrides, write the slot and register the
coordinate as populated. -/
def Floor.add_tile : Floor → BoardTile → Nat → List Kwarg → List Nat → Floor
  | f, _, 0, _, _ => f
  | f, proto, count + 1, kwargs, rng =>
    let empty_positions := f.empty_positions
    if empty_positions.isEmpty then f
    else
      let c := empty_positions.getD (rng.headD 0 % empty_positions.length) (0, 0)
      let tile0 := { proto with uid := f.nextUid, tx := c.1, ty := c.2 }
      let tile := apply_kwargs tile0 kwargs
      let f1 := { f.setSlot c.1 c.2 tile with nextUid := f.nextUid + 1 }
      let f2 := f1.set_populated c.1 c.2 true
      Floor.add_tile f2 proto count kwargs rng.tail

/-- Fisher-Yates-style model of `random.shuffle` on a list, consuming
one stream draw per element.  `post_process_layer` applies it to the
temporary list returned by `all_tiles()` and discards the result, so
only its draw consumption is ever observable. -/
def shuffle_aux {α : Type} : Nat → List α → List Nat → List α × List Nat
  | 0, _, rng => ([], rng)
  | fuel + 1, l, rng =>
    match l[rng.headD 0 % l.length]? with
    | none => ([], rng.tail)
    | some x =>
      let rest := shuffle_aux fuel (l.eraseIdx (rng.headD 0 % l.length)) rng.tail
      (x :: rest.1, rest.2)

/-- Shuffle a list with draws from the stream. -/
def shuffle {α : Type} (l : List α) (rng : List Nat) : List α × List Nat :=
  shuffle_aux l.length l rng

/-- `Floor._fix_tiles`: set `fixed = True` on every tile object listed
by `all_tiles()` (the objects stored at the populated coordinates). -/
def Floor.fix_tiles (f : Floor) : Floor :=
  f.populated.foldl
    (fun g c => g.setSlot c.1 c.2 { g.slot c.1 c.2 with fixed := true }) f

/-- Dereference a tile object by identity: the current state of the
object with the given uid, wherever the grid stores it (the model of
holding a Python reference across mutations of the floor). -/
def Floor.find_uid (f : Floor) (u : Nat) : Option BoardTile :=
  f.allSlots.find? fun t => t.uid == u

/-- Accumulator of the inner candidate loop of `post_process_layer`:
the threaded floor, the running `best_satisfaction`, and the tracked
`happiest_replacement`. -/
structure InnerScan where
  floor : Floor
  best_satisfaction : Int
  happiest_replacement : Option BoardTile
deriving Repr

/-- One candidate iteration of the inner loop: skip fixed candidates
and the anchor itself, otherwise swap, score, swap back (with the
mutated objects, as in the source), and accept on
`new_satisfaction >= best_satisfaction` (ties overwrite). -/
def inner_step (tile_a : BoardTile) (acc : InnerScan) (tile_b : BoardTile) : InnerScan :=
  if tile_b.fixed || tile_a.uid == tile_b.uid then acc
  else
    let s1 := acc.floor.swap_tiles tile_a tile_b
    let new_satisfaction := happiness s1.1
    let s2 := s1.1.swap_tiles s1.2.1 s1.2.2
    if new_satisfaction ≥ acc.best_satisfaction then
      { floor := s2.1, best_satisfaction := new_satisfaction
        happiest_replacement := some tile_b }
    else { acc with floor := s2.1 }

/-- Processing of one anchor `tile_a` inside a pass of
`post_process_layer`: dereference the anchor object, skip it when
fixed, run the inner candidate loop over `all_tiles()` (listed once, on
the floor as it stands at anchor start), and, when a replacement was
kept, commit `swap(tile_a, happiest_replacement)` and store the best
score in `self.satisfaction`. -/
def Floor.process_anchor (f : Floor) (anchor_uid : Nat) : Floor :=
  match f.find_uid anchor_uid with
  | none => f
  | some tile_a =>
    if tile_a.fixed then f
    else
      let scan := f.all_tiles.foldl (inner_step tile_a)
        { floor := f, best_satisfaction := f.satisfaction
          happiest_replacement := none }
      match scan.happiest_replacement with
      | none => scan.floor
      | some tile_b =>
        let s := scan.floor.swap_tiles tile_a tile_b
        { s.1 with satisfaction := scan.best_satisfaction }

/-- One refinement pass of `post_process_layer`:
`random.shuffle(self.all_tiles())` permutes a temporary list and
discards it (only the draw consumption survives), then the anchor loop
iterates the object list of a fresh `all_tiles()` call. -/
def Floor.run_pass (f : Floor) (rng : List Nat) : Floor × List Nat :=
  let shuffled := shuffle f.all_tiles rng
  let rng2 := shuffled.2
  let anchors := f.all_tiles.map (fun t => t.uid)
  (anchors.foldl Floor.process_anchor f, rng2)

/-- `Floor.post_process_layer` from `dungeon.py`: recompute the cached
satisfaction only when it is 0, run 4 refinement passes, then fix every
populated tile. -/
def Floor.post_process_layer (f : Floor) (rng : List Nat) : Floor :=
  let f0 := if f.satisfaction == 0 then { f with satisfaction := happiness f } else f
  let p1 := f0.run_pass rng
  let p2 := p1.1.run_pass p1.2
  let p3 := p2.1.run_pass p2.2
  let p4 := p3.1.run_pass p3.2
  p4.1.fix_tiles

/-- `obstacles.Wall()` prototype (`id = Wall`; the treasure payload is
presentation-only). -/
def proto_wall : BoardTile :=
  { BoardTile.blank 0 with id := TileID.Wall }

/-- `creatures.Dragon()` prototype. -/
def proto_dragon : BoardTile :=
  { BoardTile.blank 0 with id := TileID.Dragon, monster_level := 13, xp := 13 }

/-- `creatures.DragonEgg()` prototype. -/
def proto_dragon_egg : BoardTile :=
  { BoardTile.blank 0 with id := TileID.DragonEgg, monster_level := 0, xp := 3 }

/-- `creatures.Minotaur()` prototype. -/
def proto_minotaur : BoardTile :=
  { BoardTile.blank 0 with id := TileID.Minotaur, monster_level := 6, xp := 6 }

/-- `items.Chest()` prototype. -/
def proto_chest : BoardTile :=
  { BoardTile.blank 0 with id := TileID.Chest }

/-- `creatures.Wizard()` prototype. -/
def proto_wizard : BoardTile :=
  { BoardTile.blank 0 with id := TileID.Wizard, monster_level := 1, xp := 1 }

/-- Well-formed grid storage: `height` rows of `width` tiles each. -/
def GridWF (f : Floor) : Prop :=
  f.tiles.length = f.height ∧ ∀ row ∈ f.tiles, row.length = f.width

/-- The tile record `t` is a tile object lying on the floor: its stored
coordinates are in bounds and name the slot that holds it. -/
def Stored (f : Floor) (t : BoardTile) : Prop :=
  t.tx < f.width ∧ t.ty < f.height ∧ f.slot t.tx t.ty = t

/-- No slot other than `t`'s own claims `t`'s identity (the model of
`t` being one object, stored once). -/
def UidOnlyAt (f : Floor) (t : BoardTile) : Prop :=
  ∀ x, x < f.width → ∀ y, y < f.height →
    (f.slot x y).uid = t.uid → (x, y) = (t.tx, t.ty)

/-- The uid names an object stored at a populated coordinate. -/
def PopUid (f : Floor) (u : Nat) : Prop :=
  ∃ c ∈ f.populated, (f.slot c.1 c.2).uid = u

/-- The structural invariant every floor reachable through the engine's
operations maintains: well-formed storage; populated coordinates in
bounds, duplicate-free, and naming exactly the non-empty slots; each
populated slot's tile carrying its own coordinates; all slot
identities distinct and below the fresh-uid counter; and fixed tiles
occurring only at populated slots. -/
def FloorInv (f : Floor) : Prop :=
  GridWF f ∧
  (∀ c ∈ f.populated, c.1 < f.width ∧ c.2 < f.height) ∧
  f.populated.Nodup ∧
  (∀ x, x < f.width → ∀ y, y < f.height →
    ((x, y) ∈ f.populated ↔ (f.slot x y).id ≠ TileID.Empty)) ∧
  (∀ c ∈ f.populated, (f.slot c.1 c.2).tx = c.1 ∧ (f.slot c.1 c.2).ty = c.2) ∧
  (∀ x, x < f.width → ∀ y, y < f.height → ∀ x', x' < f.width → ∀ y', y' < f.height →
    (f.slot x y).uid = (f.slot x' y').uid → (x, y) = (x', y')) ∧
  (∀ x, x < f.width → ∀ y, y < f.height → (f.slot x y).fixed = true → (x, y) ∈ f.populated) ∧
  (∀ x, x < f.width → ∀ y, y < f.height → (f.slot x y).uid < f.nextUid)

/-- The floor states reachable through the engine: a fresh floor,
`add_tile` with a non-empty prototype, `_swap_tiles` on two tiles lying
on the floor at populated coordinates (the only way the engine ever
calls it), and `post_process_layer`. -/
inductive Reachable : Floor → Prop where
  | init (w h : Nat) : Reachable (Floor.init w h)
  | add {f : Floor} (proto : BoardTile) (count : Nat) (kwargs : List Kwarg)
      (rng : List Nat) : Reachable f → proto.id ≠ TileID.Empty →
      Reachable (f.add_tile proto count kwargs rng)
  | swap {f : Floor} (a b : BoardTile) : Reachable f →
      (a.tx, a.ty) ∈ f.populated → (b.tx, b.ty) ∈ f.populated →
      f.slot a.tx a.ty = a → f.slot b.tx b.ty = b → a.uid ≠ b.uid →
      Reachable (f.swap_tiles a b).1
  | post {f : Floor} (rng : List Nat) : Reachable f →
      Reachable (f.post_process_layer rng)

/-- A freshly built 13 x 10 floor. -/
def floor_a : Floor := Floor.init 13 10

/-- One wall placed at (0, 0) (`random.choice` draw 0). -/
def floor_b : Floor := floor_a.add_tile proto_wall 1 [] [0]

/-- The first layer optimized and fixed: the cached satisfaction is
recomputed to 2000 and the wall is frozen. -/
def floor_c : Floor := floor_b.post_process_layer []

/-- A second layer placed on top of the fixed first one: another wall
at (9, 9), a dragon at (0, 3) and a dragon egg at (0, 4) (the egg is
adjacent to the dragon, worth 9000).  The floor's happiness is 13000
while the cached satisfaction is still the stale 2000 of the first
layer. -/
def floor_d : Floor :=
  ((floor_c.add_tile proto_wall 1 [] [125]).add_tile proto_dragon 1 [] [38]).add_tile
    proto_dragon_egg 1 [] [50]

/-- A 5 x 5 floor with one minotaur at (2, 2). -/
def floor_m1 : Floor := (Floor.init 5 5).add_tile proto_minotaur 1 [] [12]

/-- The minotaur plus exactly one chest within Euclidean distance 2
(chest at (0, 2)). -/
def floor_m2 : Floor := floor_m1.add_tile proto_chest 1 [] [10]

/-- The minotaur plus exactly two chests within Euclidean distance 2
(chests at (0, 2) and (4, 2), far enough apart to avoid the chest
clustering penalty). -/
def floor_m3 : Floor := floor_m2.add_tile proto_chest 1 [] [12]

/-- `floor_m2` with its cached satisfaction set to its true happiness
(the state `post_process_layer` establishes before its first pass on a
fresh floor). -/
def floor_m2s : Floor := { floor_m2 with satisfaction := happiness floor_m2 }

/-- `floor_m2` with the populated registry enumerated in the opposite
order (the same set; Python's set iteration order is arbitrary). -/
def floor_m2r : Floor := { floor_m2 with populated := floor_m2.populated.reverse }

set_option synthInstance.maxSize 1000 in
/-- A 5 x 5 floor whose first layer (one wall at (0, 0)) has been
optimized and fixed. -/
def floor_w5 : Floor :=
  ((Floor.init 5 5).add_tile proto_wall 1 [] [0]).post_process_layer []

instance (f : Floor) : Decidable (GridWF f) := by
  unfold GridWF; exact inferInstance

instance (f : Floor) (t : BoardTile) : Decidable (Stored f t) := by
  unfold Stored; exact inferInstance

instance (f : Floor) (t : BoardTile) : Decidable (UidOnlyAt f t) := by
  unfold UidOnlyAt; exact inferInstance

instance (f : Floor) (u : Nat) : Decidable (PopUid f u) := by
  unfold PopUid; exact inferInstance

set_option synthInstance.maxSize 1000 in
instance (f : Floor) : Decidable (FloorInv f) := by
  unfold FloorInv; exact inferInstance


/-!
Theorems.  Claim theorems are named after what they establish; shared
helper lemmas precede them.  Concrete floors are evaluated by the
kernel; the `maxRecDepth` bumps give `decide` room to reduce them.
-/

/-- C10: on the configured 13 x 10 grid, (0,0) is a corner, (1,0) is
not, (0,5) is an edge cell, (6,5) is not, and (6,5) is the
integer-truncated center cell. -/
theorem grid_classification :
    grid_columns = 13 ∧ grid_rows = 10 ∧
    is_corner 0 0 = true ∧ is_corner 1 0 = false ∧
    is_edge 0 5 = true ∧ is_edge 6 5 = false ∧ is_center 6 5 = true := by
  decide

/-- C9: a Wall tile's total contribution to the happiness sum (its
positional satisfaction plus its relational branch) is the flat 2000,
for every floor whatsoever: the close/far/edge counters the branch
computes feed no score term. -/
theorem wall_flat_contribution (f : Floor) (t : BoardTile)
    (h : t.id = TileID.Wall) :
    t.satisfaction + happiness_case f t = 2000 := by
  unfold BoardTile.satisfaction happiness_case
  rw [h]
  norm_num [TileID.Wall, TileID.Dragon, TileID.Fidel, TileID.MineKing,
    TileID.Wizard, TileID.Orb, TileID.Guard, TileID.BigSlime,
    TileID.DragonEgg, TileID.Gargoyle, TileID.Giant, TileID.Gnome,
    TileID.Minotaur, TileID.Rat, TileID.Chest, TileID.Medikit]

set_option maxRecDepth 1000000 in
/-- Witness for `wall_flat_contribution` at the wall of `floor_d`. -/
theorem wall_flat_contribution_witness :
    (floor_d.slot 0 0).id = TileID.Wall ∧
    (floor_d.slot 0 0).satisfaction +
      happiness_case floor_d (floor_d.slot 0 0) = 2000 :=
  ⟨by decide, wall_flat_contribution floor_d _ (by decide)⟩

/-- C2 (code bug): the floor produced by `post_process_layer` is
independent of the injected random stream — `random.shuffle` is
applied to the temporary list returned by `all_tiles()` and its result
is discarded, so the anchor order never sees the draws.  The second
conjunct shows the modelled shuffle does permute when its draws ask
for it, so the independence is a genuine discard. -/
theorem refinement_ignores_random_order :
    (∀ (f : Floor) (rng rng' : List Nat),
      f.post_process_layer rng = f.post_process_layer rng') ∧
    (shuffle [0, 1] [1]).1 = [1, 0] :=
  ⟨fun _ _ _ => rfl, by decide⟩

set_option maxRecDepth 2000000 in
/-- C3 (counterexample): on `floor_m3` the minotaur at (2, 2) has no
other minotaur on the board and exactly two chests within Euclidean
distance 2, and the board's happiness is 0 — every other contribution
vanishes (the two chests are more than the clustering radius apart),
so the claimed chest-proximity bonus of 10000 is *not* awarded for the
exactly-two configuration. -/
theorem minotaur_exact_two_no_bonus :
    (floor_m3.slot 2 2).id = TileID.Minotaur ∧
    (floor_m3.get_tile_list TileID.Minotaur).length = 1 ∧
    (floor_m3.get_tile_list TileID.Chest).countP
      (fun c => (floor_m3.slot 2 2).is_near c 4) = 2 ∧
    happiness floor_m3 = 0 := by
  decide

/-- C3 (amended): the scorer's minotaur rule requires *exactly one*
chest within Euclidean distance 2 — for any minotaur with no other
minotaur within distance 2, its relational contribution is 10000 when
exactly one chest is in range and 0 for any other count (zero, two,
three, ...). -/
theorem minotaur_exactly_one_chest (f : Floor) (t : BoardTile)
    (hid : t.id = TileID.Minotaur)
    (hm : ∀ m ∈ (f.get_tile_list TileID.Minotaur).filter
        (fun m => m.uid != t.uid), t.is_near m 4 = false) :
    happiness_case f t =
      if (f.get_tile_list TileID.Chest).countP (fun c => t.is_near c 4) = 1
      then 10000 else 0 := by
  unfold happiness_case
  rw [hid]
  norm_num [TileID.Minotaur, TileID.BigSlime, TileID.DragonEgg,
    TileID.Fidel, TileID.Gargoyle, TileID.Giant, TileID.Gnome]
  rw [if_neg]
  · by_cases hc : f.get_tile_list TileID.Chest = []
    · simp [hc]
    · simp [hc]
  · rintro ⟨-, x, hx, hne, hnear⟩
    have hfalse := hm x (List.mem_filter.mpr ⟨hx, by simpa using hne⟩)
    simp [hfalse] at hnear

set_option maxRecDepth 2000000 in
/-- Witness for `minotaur_exactly_one_chest` at `floor_m2` (one chest
in range: the bonus is awarded). -/
theorem minotaur_exactly_one_chest_witness :
    (floor_m2.slot 2 2).id = TileID.Minotaur ∧
    happiness_case floor_m2 (floor_m2.slot 2 2) =
      (if (floor_m2.get_tile_list TileID.Chest).countP
          (fun c => (floor_m2.slot 2 2).is_near c 4) = 1
       then 10000 else 0) :=
  ⟨by decide, minotaur_exactly_one_chest floor_m2 _ (by decide) (by decide)⟩

set_option maxRecDepth 2000000 in
/-- C1 (counterexample): `floor_d` is reachable (first layer placed,
optimized and fixed; second layer placed, which leaves the cached
satisfaction stale at 2000 while the floor's happiness is 13000).  In
the first refinement pass of a `post_process_layer` call the first
anchor (the fixed wall, uid 130) is skipped, and processing the next
anchor (the unfixed second wall, uid 131) *strictly decreases* the
floor's happiness: every candidate swap scores below the current
13000 but above the stale baseline 2000, so the best of them (4000) is
committed.  The per-anchor score can therefore decrease within a
pass. -/
theorem stale_satisfaction_decreases_score :
    Reachable floor_d ∧
    floor_d.process_anchor 130 = floor_d ∧
    happiness (floor_d.process_anchor 131) < happiness floor_d := by
  refine ⟨?_, by decide, by decide⟩
  have h0 : Reachable floor_a := Reachable.init 13 10
  have h1 : Reachable floor_b :=
    Reachable.add proto_wall 1 [] [0] h0 (by decide)
  have h2 : Reachable floor_c := Reachable.post [] h1
  have h3 := Reachable.add proto_wall 1 [] [125] h2 (by decide)
  have h4 := Reachable.add proto_dragon 1 [] [38] h3 (by decide)
  exact Reachable.add proto_dragon_egg 1 [] [50] h4 (by decide)

theorem getD_set_self {α : Type} (l : List α) (i : Nat) (a d : α)
    (h : i < l.length) : (l.set i a).getD i d = a := by
  simp [List.getD_eq_getElem?_getD, List.getElem?_set_eq_of_lt _ h]

theorem getD_set_ne {α : Type} (l : List α) (i j : Nat) (a d : α)
    (h : i ≠ j) : (l.set i a).getD j d = l.getD j d := by
  simp [List.getD_eq_getElem?_getD, List.getElem?_set_ne h]

theorem getD_of_lt {α : Type} (l : List α) (i : Nat) (d : α)
    (h : i < l.length) : l.getD i d = l[i] := by
  simp [List.getD_eq_getElem?_getD, List.getElem?_eq_getElem h]

@[simp] theorem setSlot_width (f : Floor) (x y : Nat) (t : BoardTile) :
    (f.setSlot x y t).width = f.width := rfl

@[simp] theorem setSlot_height (f : Floor) (x y : Nat) (t : BoardTile) :
    (f.setSlot x y t).height = f.height := rfl

@[simp] theorem setSlot_populated (f : Floor) (x y : Nat) (t : BoardTile) :
    (f.setSlot x y t).populated = f.populated := rfl

@[simp] theorem setSlot_satisfaction (f : Floor) (x y : Nat) (t : BoardTile) :
    (f.setSlot x y t).satisfaction = f.satisfaction := rfl

@[simp] theorem setSlot_nextUid (f : Floor) (x y : Nat) (t : BoardTile) :
    (f.setSlot x y t).nextUid = f.nextUid := rfl

@[simp] theorem mapGrid_width (f : Floor) (g : BoardTile → BoardTile) :
    (f.mapGrid g).width = f.width := rfl

@[simp] theorem mapGrid_height (f : Floor) (g : BoardTile → BoardTile) :
    (f.mapGrid g).height = f.height := rfl

@[simp] theorem mapGrid_populated (f : Floor) (g : BoardTile → BoardTile) :
    (f.mapGrid g).populated = f.populated := rfl

@[simp] theorem mapGrid_satisfaction (f : Floor) (g : BoardTile → BoardTile) :
    (f.mapGrid g).satisfaction = f.satisfaction := rfl

@[simp] theorem mapGrid_nextUid (f : Floor) (g : BoardTile → BoardTile) :
    (f.mapGrid g).nextUid = f.nextUid := rfl

@[simp] theorem swap_tiles_width (f : Floor) (a b : BoardTile) :
    (f.swap_tiles a b).1.width = f.width := rfl

@[simp] theorem swap_tiles_height (f : Floor) (a b : BoardTile) :
    (f.swap_tiles a b).1.height = f.height := rfl

@[simp] theorem swap_tiles_populated (f : Floor) (a b : BoardTile) :
    (f.swap_tiles a b).1.populated = f.populated := rfl

@[simp] theorem swap_tiles_satisfaction (f : Floor) (a b : BoardTile) :
    (f.swap_tiles a b).1.satisfaction = f.satisfaction := rfl

@[simp] theorem swap_tiles_nextUid (f : Floor) (a b : BoardTile) :
    (f.swap_tiles a b).1.nextUid = f.nextUid := rfl

@[simp] theorem swap_tiles_snd_fst (f : Floor) (a b : BoardTile) :
    (f.swap_tiles a b).2.1 = { a with tx := b.tx, ty := b.ty } := rfl

@[simp] theorem swap_tiles_snd_snd (f : Floor) (a b : BoardTile) :
    (f.swap_tiles a b).2.2 = { b with tx := a.tx, ty := a.ty } := rfl

theorem slot_setSlot_self (f : Floor) (x y : Nat) (t : BoardTile)
    (hwf : GridWF f) (hx : x < f.width) (hy : y < f.height) :
    (f.setSlot x y t).slot x y = t := by
  obtain ⟨hlen, hrow⟩ := hwf
  have hyl : y < f.tiles.length := by omega
  have hrl : (f.tiles.getD y []).length = f.width := by
    rw [getD_of_lt _ _ _ hyl]; exact hrow _ (List.getElem_mem _)
  show ((f.tiles.set y _).getD y []).getD x _ = t
  rw [getD_set_self _ _ _ _ hyl, getD_set_self _ _ _ _ (by omega)]

theorem slot_setSlot_ne (f : Floor) (x y x' y' : Nat) (t : BoardTile)
    (h : (x', y') ≠ (x, y)) :
    (f.setSlot x y t).slot x' y' = f.slot x' y' := by
  show ((f.tiles.set y _).getD y' []).getD x' _ = (f.tiles.getD y' []).getD x' _
  by_cases hy : y = y'
  · subst hy
    by_cases hyl : y < f.tiles.length
    · rw [getD_set_self _ _ _ _ hyl]
      have hx : x ≠ x' := fun hxx => h (by simp [hxx])
      rw [getD_set_ne _ _ _ _ _ hx]
    · rw [List.set_eq_of_length_le (by omega)]
  · rw [getD_set_ne _ _ _ _ _ hy]

theorem slot_mapGrid (f : Floor) (g : BoardTile → BoardTile) (x y : Nat)
    (hwf : GridWF f) (hx : x < f.width) (hy : y < f.height) :
    (f.mapGrid g).slot x y = g (f.slot x y) := by
  obtain ⟨hlen, hrow⟩ := hwf
  have hyl : y < f.tiles.length := by omega
  have hxl : x < (f.tiles[y]).length := by
    rw [hrow _ (List.getElem_mem _)]; exact hx
  show ((f.tiles.map fun row => row.map g).getD y []).getD x _ =
    g ((f.tiles.getD y []).getD x _)
  have h1 : (f.tiles.map fun row => row.map g).getD y [] = (f.tiles[y]).map g := by
    rw [getD_of_lt _ _ _ (by simpa using hyl)]
    simp
  rw [h1, getD_of_lt _ _ _ (by simpa using hxl), List.getElem_map,
    getD_of_lt _ _ _ hyl, getD_of_lt _ _ _ hxl]

theorem gridWF_setSlot (f : Floor) (x y : Nat) (t : BoardTile)
    (hwf : GridWF f) : GridWF (f.setSlot x y t) := by
  obtain ⟨hlen, hrow⟩ := hwf
  by_cases hyl : y < f.tiles.length
  · refine ⟨by simpa [Floor.setSlot] using hlen, ?_⟩
    intro row hmem
    rcases List.mem_or_eq_of_mem_set hmem with hmem' | hmem'
    · exact hrow _ hmem'
    · subst hmem'
      rw [List.length_set, getD_of_lt _ _ _ hyl]
      exact hrow _ (List.getElem_mem _)
  · show GridWF { f with tiles := f.tiles.set y _ }
    rw [List.set_eq_of_length_le (by omega)]
    exact ⟨hlen, hrow⟩

theorem gridWF_mapGrid (f : Floor) (g : BoardTile → BoardTile)
    (hwf : GridWF f) : GridWF (f.mapGrid g) := by
  obtain ⟨hlen, hrow⟩ := hwf
  refine ⟨by simpa [Floor.mapGrid] using hlen, ?_⟩
  intro row hmem
  obtain ⟨orig, horig, rfl⟩ := List.mem_map.mp hmem
  simpa using hrow _ horig

theorem gridWF_swap_tiles (f : Floor) (a b : BoardTile)
    (hwf : GridWF f) : GridWF (f.swap_tiles a b).1 :=
  gridWF_mapGrid _ _ (gridWF_setSlot _ _ _ _ (gridWF_setSlot _ _ _ _ hwf))

theorem swap_slot_spec (f : Floor) (a b : BoardTile) (hwf : GridWF f)
    (ha : Stored f a) (hb : Stored f b)
    (hua : UidOnlyAt f a) (hub : UidOnlyAt f b) (hne : a.uid ≠ b.uid)
    (x y : Nat) (hx : x < f.width) (hy : y < f.height) :
    (f.swap_tiles a b).1.slot x y =
      if (x, y) = (a.tx, a.ty) then { b with tx := a.tx, ty := a.ty }
      else if (x, y) = (b.tx, b.ty) then { a with tx := b.tx, ty := b.ty }
      else f.slot x y := by
  obtain ⟨hax, hay, has⟩ := ha
  obtain ⟨hbx, hby, hbs⟩ := hb
  have hpos : (a.tx, a.ty) ≠ (b.tx, b.ty) := by
    intro hcon
    simp only [Prod.mk.injEq] at hcon
    apply hne
    have hba : a = b := by rw [← has, hcon.1, hcon.2, hbs]
    rw [hba]
  have hg1wf : GridWF (f.setSlot a.tx a.ty (f.slot b.tx b.ty)) :=
    gridWF_setSlot _ _ _ _ hwf
  have hg2wf : GridWF ((f.setSlot a.tx a.ty (f.slot b.tx b.ty)).setSlot
      b.tx b.ty (f.slot a.tx a.ty)) := gridWF_setSlot _ _ _ _ hg1wf
  have hmain : (f.swap_tiles a b).1 =
      ((f.setSlot a.tx a.ty (f.slot b.tx b.ty)).setSlot b.tx b.ty
        (f.slot a.tx a.ty)).mapGrid (coord_swap_update a b) := rfl
  rw [hmain, slot_mapGrid _ _ _ _ hg2wf (by simpa using hx) (by simpa using hy)]
  by_cases hA : (x, y) = (a.tx, a.ty)
  · simp only [Prod.mk.injEq] at hA
    obtain ⟨hx1, hy1⟩ := hA
    subst hx1; subst hy1
    rw [if_pos rfl]
    rw [slot_setSlot_ne _ _ _ _ _ _ hpos,
      slot_setSlot_self _ _ _ _ hwf hax hay, hbs]
    unfold coord_swap_update
    rw [if_neg (by simp [Ne.symm hne]), if_pos (by simp)]
  · rw [if_neg (by simpa [Prod.mk.injEq] using hA)]
    by_cases hB : (x, y) = (b.tx, b.ty)
    · simp only [Prod.mk.injEq] at hB
      obtain ⟨hx1, hy1⟩ := hB
      subst hx1; subst hy1
      rw [if_pos rfl]
      rw [slot_setSlot_self _ _ _ _ hg1wf (by simpa using hbx) (by simpa using hby),
        has]
      unfold coord_swap_update
      rw [if_pos (by simp)]
    · rw [if_neg (by simpa [Prod.mk.injEq] using hB)]
      rw [slot_setSlot_ne _ _ _ _ _ _ hB, slot_setSlot_ne _ _ _ _ _ _ hA]
      unfold coord_swap_update
      rw [if_neg, if_neg]
      · intro hcon
        simp only [beq_iff_eq] at hcon
        exact hB (hub x hx y hy hcon)
      · intro hcon
        simp only [beq_iff_eq] at hcon
        exact hA (hua x hx y hy hcon)

theorem floor_eq_of_slots (f g : Floor) (hwf : GridWF f) (hwg : GridWF g)
    (hw : f.width = g.width) (hh : f.height = g.height)
    (hpop : f.populated = g.populated) (hsat : f.satisfaction = g.satisfaction)
    (hnext : f.nextUid = g.nextUid)
    (hs : ∀ x, x < f.width → ∀ y, y < f.height → f.slot x y = g.slot x y) :
    f = g := by
  obtain ⟨hfl, hfr⟩ := hwf
  obtain ⟨hgl, hgr⟩ := hwg
  have htiles : f.tiles = g.tiles := by
    apply List.ext_getElem (by omega)
    intro y hy1 hy2
    apply List.ext_getElem
    · rw [hfr _ (List.getElem_mem _), hgr _ (List.getElem_mem _)]; omega
    · intro x hx1 hx2
      have hxw : x < f.width := by
        rw [← hfr _ (List.getElem_mem _)]; exact hx1
      have hyh : y < f.height := by omega
      have hslots := hs x hxw y hyh
      have e1 : f.slot x y = f.tiles[y][x] := by
        show (f.tiles.getD y []).getD x _ = _
        rw [getD_of_lt _ _ _ hy1, getD_of_lt _ _ _ hx1]
      have e2 : g.slot x y = g.tiles[y][x] := by
        show (g.tiles.getD y []).getD x _ = _
        rw [getD_of_lt _ _ _ hy2, getD_of_lt _ _ _ hx2]
      rw [e1, e2] at hslots
      exact hslots
  show (⟨f.width, f.height, f.tiles, f.populated, f.satisfaction, f.nextUid⟩ : Floor) = g
  rw [hw, hh, htiles, hpop, hsat, hnext]

theorem swap_tiles_roundtrip (f : Floor) (a b : BoardTile) (hwf : GridWF f)
    (ha : Stored f a) (hb : Stored f b)
    (hua : UidOnlyAt f a) (hub : UidOnlyAt f b) (hne : a.uid ≠ b.uid) :
    (f.swap_tiles a b).1.swap_tiles (f.swap_tiles a b).2.1 (f.swap_tiles a b).2.2
      = (f, a, b) := by
  have hpos : (a.tx, a.ty) ≠ (b.tx, b.ty) := by
    intro hcon
    simp only [Prod.mk.injEq] at hcon
    apply hne
    have hba : a = b := by rw [← ha.2.2, hcon.1, hcon.2, hb.2.2]
    rw [hba]
  have hwf1 : GridWF (f.swap_tiles a b).1 := gridWF_swap_tiles _ _ _ hwf
  have spec := swap_slot_spec f a b hwf ha hb hua hub hne
  have ha' : Stored (f.swap_tiles a b).1 { a with tx := b.tx, ty := b.ty } := by
    refine ⟨by simpa using hb.1, by simpa using hb.2.1, ?_⟩
    show (f.swap_tiles a b).1.slot b.tx b.ty = _
    rw [spec b.tx b.ty hb.1 hb.2.1, if_neg (Ne.symm hpos), if_pos rfl]
  have hb' : Stored (f.swap_tiles a b).1 { b with tx := a.tx, ty := a.ty } := by
    refine ⟨by simpa using ha.1, by simpa using ha.2.1, ?_⟩
    show (f.swap_tiles a b).1.slot a.tx a.ty = _
    rw [spec a.tx a.ty ha.1 ha.2.1, if_pos rfl]
  have hua' : UidOnlyAt (f.swap_tiles a b).1 { a with tx := b.tx, ty := b.ty } := by
    intro x hx y hy hu
    simp only [swap_tiles_width] at hx
    simp only [swap_tiles_height] at hy
    rw [spec x y hx hy] at hu
    by_cases hA : (x, y) = (a.tx, a.ty)
    · rw [if_pos hA] at hu
      exact absurd hu.symm hne
    · rw [if_neg hA] at hu
      by_cases hB : (x, y) = (b.tx, b.ty)
      · simpa using hB
      · rw [if_neg hB] at hu
        exact absurd (hua x hx y hy hu) hA
  have hub' : UidOnlyAt (f.swap_tiles a b).1 { b with tx := a.tx, ty := a.ty } := by
    intro x hx y hy hu
    simp only [swap_tiles_width] at hx
    simp only [swap_tiles_height] at hy
    rw [spec x y hx hy] at hu
    by_cases hA : (x, y) = (a.tx, a.ty)
    · simpa using hA
    · rw [if_neg hA] at hu
      by_cases hB : (x, y) = (b.tx, b.ty)
      · rw [if_pos hB] at hu
        exact absurd hu hne
      · rw [if_neg hB] at hu
        exact absurd (hub x hx y hy hu) hB
  have spec2 := swap_slot_spec (f.swap_tiles a b).1
    { a with tx := b.tx, ty := b.ty } { b with tx := a.tx, ty := a.ty }
    hwf1 ha' hb' hua' hub' hne
  refine Prod.ext_iff.mpr ⟨?_, rfl⟩
  refine floor_eq_of_slots _ _ (gridWF_swap_tiles _ _ _ hwf1) hwf
    (by simp) (by simp) (by simp) (by simp) (by simp) ?_
  intro x hx y hy
  simp only [swap_tiles_width] at hx
  simp only [swap_tiles_height] at hy
  rw [swap_tiles_snd_fst, swap_tiles_snd_snd] 
  rw [spec2 x y (by simpa using hx) (by simpa using hy)]
  by_cases hA : (x, y) = (b.tx, b.ty)
  · rw [if_pos (by simpa using hA)]
    simp only [Prod.mk.injEq] at hA
    obtain ⟨rfl, rfl⟩ := hA
    rw [hb.2.2]
  · rw [if_neg (by simpa using hA)]
    by_cases hB : (x, y) = (a.tx, a.ty)
    · rw [if_pos (by simpa using hB)]
      simp only [Prod.mk.injEq] at hB
      obtain ⟨rfl, rfl⟩ := hB
      rw [ha.2.2]
    · rw [if_neg (by simpa using hB)]
      rw [spec x y hx hy, if_neg hB, if_neg hA]

/-- C7: `_swap_tiles` is its own inverse.  For two distinct tile
objects lying on the floor at the slots their stored coordinates name,
swapping them and then swapping again (with the objects' mutated
coordinates, as the inner loop of `post_process_layer` does) restores
the grid's slot contents and both tiles' coordinate attributes
exactly. -/
theorem swap_twice_restores (f : Floor) (a b : BoardTile) (hwf : GridWF f)
    (ha : Stored f a) (hb : Stored f b)
    (hua : UidOnlyAt f a) (hub : UidOnlyAt f b) (hne : a.uid ≠ b.uid) :
    (f.swap_tiles a b).1.swap_tiles (f.swap_tiles a b).2.1 (f.swap_tiles a b).2.2
      = (f, a, b) :=
  swap_tiles_roundtrip f a b hwf ha hb hua hub hne

set_option maxRecDepth 2000000 in
/-- Witness for `swap_twice_restores`: the dragon at (0, 3) and the
egg at (0, 4) of `floor_d`. -/
theorem swap_twice_restores_witness :
    GridWF floor_d ∧ Stored floor_d (floor_d.slot 0 3) ∧
    (floor_d.swap_tiles (floor_d.slot 0 3) (floor_d.slot 0 4)).1.swap_tiles
        (floor_d.swap_tiles (floor_d.slot 0 3) (floor_d.slot 0 4)).2.1
        (floor_d.swap_tiles (floor_d.slot 0 3) (floor_d.slot 0 4)).2.2
      = (floor_d, floor_d.slot 0 3, floor_d.slot 0 4) :=
  ⟨by decide, by decide,
    swap_twice_restores floor_d _ _ (by decide) (by decide) (by decide)
      (by decide) (by decide) (by decide)⟩

theorem stored_of_pop (f : Floor) (c : Nat × Nat) (hInv : FloorInv f)
    (hc : c ∈ f.populated) : Stored f (f.slot c.1 c.2) := by
  obtain ⟨hwf, hmem, hnd, hiff, hco, huid, hfix, hbound⟩ := hInv
  obtain ⟨hc1, hc2⟩ := hmem c hc
  obtain ⟨ht1, ht2⟩ := hco c hc
  refine ⟨?_, ?_, ?_⟩
  · rw [ht1]; exact hc1
  · rw [ht2]; exact hc2
  · rw [ht1, ht2]

theorem uidOnlyAt_of_pop (f : Floor) (c : Nat × Nat) (hInv : FloorInv f)
    (hc : c ∈ f.populated) : UidOnlyAt f (f.slot c.1 c.2) := by
  obtain ⟨hwf, hmem, hnd, hiff, hco, huid, hfix, hbound⟩ := hInv
  obtain ⟨hc1, hc2⟩ := hmem c hc
  obtain ⟨ht1, ht2⟩ := hco c hc
  intro x hx y hy hu
  rw [ht1, ht2]
  exact huid x hx y hy c.1 hc1 c.2 hc2 hu

theorem floorInv_swap (f : Floor) (a b : BoardTile) (hInv : FloorInv f)
    (hpa : (a.tx, a.ty) ∈ f.populated) (hpb : (b.tx, b.ty) ∈ f.populated)
    (hsa : f.slot a.tx a.ty = a) (hsb : f.slot b.tx b.ty = b)
    (hne : a.uid ≠ b.uid) :
    FloorInv (f.swap_tiles a b).1 := by
  have hSa : Stored f a := by
    have := stored_of_pop f (a.tx, a.ty) hInv hpa
    rwa [hsa] at this
  have hSb : Stored f b := by
    have := stored_of_pop f (b.tx, b.ty) hInv hpb
    rwa [hsb] at this
  have hUa : UidOnlyAt f a := by
    have := uidOnlyAt_of_pop f (a.tx, a.ty) hInv hpa
    rwa [hsa] at this
  have hUb : UidOnlyAt f b := by
    have := uidOnlyAt_of_pop f (b.tx, b.ty) hInv hpb
    rwa [hsb] at this
  obtain ⟨hwf, hmem, hnd, hiff, hco, huid, hfix, hbound⟩ := hInv
  have spec := swap_slot_spec f a b hwf hSa hSb hUa hUb hne
  have hPos : (a.tx, a.ty) ≠ (b.tx, b.ty) := by
    intro hcon
    simp only [Prod.mk.injEq] at hcon
    apply hne
    have hba : a = b := by rw [← hsa, hcon.1, hcon.2, hsb]
    rw [hba]
  -- a uid-driven description of the swapped slots, in terms of the ids
  -- carried before the swap
  have huid_spec : ∀ x, x < f.width → ∀ y, y < f.height →
      ((f.swap_tiles a b).1.slot x y).uid =
        (if (x, y) = (a.tx, a.ty) then b.uid
         else if (x, y) = (b.tx, b.ty) then a.uid
         else (f.slot x y).uid) := by
    intro x hx y hy
    rw [spec x y hx hy]
    by_cases hA : (x, y) = (a.tx, a.ty)
    · rw [if_pos hA, if_pos hA]
    · rw [if_neg hA, if_neg hA]
      by_cases hB : (x, y) = (b.tx, b.ty)
      · rw [if_pos hB, if_pos hB]
      · rw [if_neg hB, if_neg hB]
  refine ⟨gridWF_swap_tiles _ _ _ hwf, ?_, ?_, ?_, ?_, ?_, ?_, ?_⟩
  · simpa using hmem
  · simpa using hnd
  · -- populated names exactly the non-empty slots
    intro x hx y hy
    simp only [swap_tiles_width] at hx
    simp only [swap_tiles_height] at hy
    rw [swap_tiles_populated, spec x y hx hy]
    by_cases hA : (x, y) = (a.tx, a.ty)
    · rw [if_pos hA, hA]
      show _ ↔ b.id ≠ TileID.Empty
      rw [← hsb]
      constructor
      · intro _
        exact (hiff b.tx hSb.1 b.ty hSb.2.1).mp hpb
      · intro _
        exact hpa
    · rw [if_neg hA]
      by_cases hB : (x, y) = (b.tx, b.ty)
      · rw [if_pos hB, hB]
        show _ ↔ a.id ≠ TileID.Empty
        rw [← hsa]
        constructor
        · intro _
          exact (hiff a.tx hSa.1 a.ty hSa.2.1).mp hpa
        · intro _
          exact hpb
      · rw [if_neg hB]
        exact hiff x hx y hy
  · -- populated slots carry their own coordinates
    intro c hc
    rw [swap_tiles_populated] at hc
    obtain ⟨hc1, hc2⟩ := hmem c hc
    rw [spec c.1 c.2 hc1 hc2]
    by_cases hA : (c.1, c.2) = (a.tx, a.ty)
    · simp only [Prod.mk.injEq] at hA
      rw [if_pos (by simp [hA.1, hA.2])]
      simp [hA.1, hA.2]
    · rw [if_neg (by simpa [Prod.mk.injEq] using hA)]
      by_cases hB : (c.1, c.2) = (b.tx, b.ty)
      · simp only [Prod.mk.injEq] at hB
        rw [if_pos (by simp [hB.1, hB.2])]
        simp [hB.1, hB.2]
      · rw [if_neg (by simpa [Prod.mk.injEq] using hB)]
        exact hco c hc
  · -- slot identities stay pairwise distinct
    intro x hx y hy x' hx' y' hy' hu
    simp only [swap_tiles_width] at hx hx'
    simp only [swap_tiles_height] at hy hy'
    rw [huid_spec x hx y hy, huid_spec x' hx' y' hy'] at hu
    have haslot : (f.slot a.tx a.ty).uid = a.uid := by rw [hsa]
    have hbslot : (f.slot b.tx b.ty).uid = b.uid := by rw [hsb]
    by_cases hA : (x, y) = (a.tx, a.ty)
    · rw [if_pos hA] at hu
      by_cases hA' : (x', y') = (a.tx, a.ty)
      · exact hA.trans hA'.symm
      · rw [if_neg hA'] at hu
        by_cases hB' : (x', y') = (b.tx, b.ty)
        · rw [if_pos hB'] at hu
          exact absurd hu.symm hne
        · rw [if_neg hB'] at hu
          exact absurd (hUb x' hx' y' hy' hu.symm) hB'
    · rw [if_neg hA] at hu
      by_cases hB : (x, y) = (b.tx, b.ty)
      · rw [if_pos hB] at hu
        by_cases hA' : (x', y') = (a.tx, a.ty)
        · rw [if_pos hA'] at hu
          exact absurd hu hne
        · rw [if_neg hA'] at hu
          by_cases hB' : (x', y') = (b.tx, b.ty)
          · exact hB.trans hB'.symm
          · rw [if_neg hB'] at hu
            exact absurd (hUa x' hx' y' hy' hu.symm) hA'
      · rw [if_neg hB] at hu
        by_cases hA' : (x', y') = (a.tx, a.ty)
        · rw [if_pos hA'] at hu
          exact absurd (hUb x hx y hy hu) hB
        · rw [if_neg hA'] at hu
          by_cases hB' : (x', y') = (b.tx, b.ty)
          · rw [if_pos hB'] at hu
            exact absurd (hUa x hx y hy hu) hA
          · rw [if_neg hB'] at hu
            exact huid x hx y hy x' hx' y' hy' hu
  · -- fixed slots are populated
    intro x hx y hy hfx
    simp only [swap_tiles_width] at hx
    simp only [swap_tiles_height] at hy
    rw [swap_tiles_populated]
    rw [spec x y hx hy] at hfx
    by_cases hA : (x, y) = (a.tx, a.ty)
    · rw [hA]; exact hpa
    · rw [if_neg hA] at hfx
      by_cases hB : (x, y) = (b.tx, b.ty)
      · rw [hB]; exact hpb
      · rw [if_neg hB] at hfx
        exact hfix x hx y hy hfx
  · -- slot identities stay below the fresh counter
    intro x hx y hy
    simp only [swap_tiles_width] at hx
    simp only [swap_tiles_height] at hy
    rw [swap_tiles_nextUid, huid_spec x hx y hy]
    by_cases hA : (x, y) = (a.tx, a.ty)
    · rw [if_pos hA]
      have := hbound b.tx hSb.1 b.ty hSb.2.1
      rwa [hsb] at this
    · rw [if_neg hA]
      by_cases hB : (x, y) = (b.tx, b.ty)
      · rw [if_pos hB]
        have := hbound a.tx hSa.1 a.ty hSa.2.1
        rwa [hsa] at this
      · rw [if_neg hB]
        exact hbound x hx y hy

theorem mem_prod_coords (w h : Nat) (c : Nat × Nat) :
    c ∈ ((List.range h).flatMap fun y => (List.range w).map fun x => (x, y)) ↔
      c.1 < w ∧ c.2 < h := by
  simp only [List.mem_flatMap, List.mem_map, List.mem_range]
  constructor
  · rintro ⟨y, hy, x, hx, rfl⟩
    exact ⟨hx, hy⟩
  · rintro ⟨h1, h2⟩
    exact ⟨c.2, h2, c.1, h1, by simp⟩

theorem nodup_prod_coords (w h : Nat) :
    ((List.range h).flatMap fun y => (List.range w).map fun x => (x, y)).Nodup := by
  induction h with
  | zero => simp
  | succ n ih =>
    rw [List.range_succ, List.flatMap_append]
    refine List.Nodup.append ih ?_ ?_
    · simp only [List.flatMap_cons, List.flatMap_nil, List.append_nil]
      refine List.Nodup.map ?_ (List.nodup_range _)
      intro x1 x2 hx
      simpa using congrArg Prod.fst hx
    · intro c hc1 hc2
      have h1 := (mem_prod_coords w n c).mp hc1
      simp only [List.flatMap_cons, List.flatMap_nil, List.append_nil,
        List.mem_map] at hc2
      obtain ⟨x, _, rfl⟩ := hc2
      exact absurd h1.2 (by simp)

theorem is_populated_iff (f : Floor) (x y : Nat) :
    f.is_populated x y = true ↔ (x, y) ∈ f.populated := by
  simp [Floor.is_populated]

theorem mem_empty_positions (f : Floor) (c : Nat × Nat) :
    c ∈ f.empty_positions ↔ c.1 < f.width ∧ c.2 < f.height ∧ c ∉ f.populated := by
  unfold Floor.empty_positions
  rw [List.mem_filter, mem_prod_coords]
  constructor
  · rintro ⟨⟨h1, h2⟩, h3⟩
    refine ⟨h1, h2, fun hm => ?_⟩
    rw [Bool.not_eq_true', ← Bool.not_eq_true] at h3
    exact h3 ((is_populated_iff f c.1 c.2).mpr (by simpa using hm))
  · rintro ⟨h1, h2, h3⟩
    refine ⟨⟨h1, h2⟩, ?_⟩
    rw [Bool.not_eq_true', ← Bool.not_eq_true]
    intro hp
    exact h3 (by simpa using (is_populated_iff f c.1 c.2).mp hp)

theorem nodup_empty_positions (f : Floor) : f.empty_positions.Nodup :=
  List.Nodup.filter _ (nodup_prod_coords _ _)

theorem getD_mod_mem {α : Type} (l : List α) (i : Nat) (d : α) (h : l ≠ []) :
    l.getD (i % l.length) d ∈ l := by
  have hl : 0 < l.length := List.length_pos.mpr h
  rw [getD_of_lt _ _ _ (Nat.mod_lt _ hl)]
  exact List.getElem_mem _

theorem set_populated_true_append (f : Floor) (x y : Nat) (hx : x < f.width)
    (hy : y < f.height) (h : (x, y) ∉ f.populated) :
    f.set_populated x y true = { f with populated := f.populated ++ [(x, y)] } := by
  unfold Floor.set_populated
  rw [if_pos (by simp [hx, hy]), if_pos rfl,
    if_neg (show ¬(f.populated.contains (x, y) = true) from
      fun hp => h (by simpa using hp))]

theorem add_tile_succ_eq (f : Floor) (proto : BoardTile) (n : Nat)
    (kwargs : List Kwarg) (rng : List Nat) (c : Nat × Nat) (g : Floor)
    (hc : c = f.empty_positions.getD (rng.headD 0 % f.empty_positions.length) (0, 0))
    (he : f.empty_positions.isEmpty = false)
    (hg : g = ({ f.setSlot c.1 c.2
            (apply_kwargs
              { proto with
                uid := f.nextUid
                tx := c.1
                ty := c.2 } kwargs) with
          nextUid := f.nextUid + 1 }).set_populated c.1 c.2 true) :
    f.add_tile proto (n + 1) kwargs rng = g.add_tile proto n kwargs rng.tail := by
  subst hc
  subst hg
  conv_lhs => rw [Floor.add_tile]
  rw [if_neg (by simp [he])]

theorem empty_positions_of_append (f g : Floor) (c : Nat × Nat)
    (hw : g.width = f.width) (hh : g.height = f.height)
    (hp : g.populated = f.populated ++ [c]) :
    g.empty_positions = f.empty_positions.filter (fun z => z != c) := by
  unfold Floor.empty_positions
  rw [hw, hh, List.filter_filter]
  apply List.filter_congr
  intro a _
  rw [Bool.eq_iff_iff]
  simp only [Bool.not_eq_true', Bool.and_eq_true, bne_iff_ne, ne_eq,
    ← Bool.not_eq_true, is_populated_iff, hp]
  have ha : ((a.1, a.2) : Nat × Nat) = a := rfl
  rw [ha]
  simp only [List.mem_append, List.mem_singleton]
  tauto

theorem add_tile_populated_length (count : Nat) :
    ∀ (f : Floor) (proto : BoardTile) (kwargs : List Kwarg) (rng : List Nat),
    (f.add_tile proto count kwargs rng).populated.length =
      f.populated.length + min count f.empty_positions.length := by
  induction count with
  | zero => intro f proto kwargs rng; simp [Floor.add_tile]
  | succ n ih =>
    intro f proto kwargs rng
    cases he : f.empty_positions.isEmpty
    · set c := f.empty_positions.getD (rng.headD 0 % f.empty_positions.length)
        (0, 0) with hcdef
      have hc : c ∈ f.empty_positions :=
        getD_mod_mem _ _ _ (by simpa [List.isEmpty_iff] using he)
      obtain ⟨hcx, hcy, hcnot⟩ := (mem_empty_positions f _).mp hc
      have he1 : 0 < f.empty_positions.length := by
        cases hl : f.empty_positions with
        | nil => rw [hl] at hc; cases hc
        | cons a l => simp [hl]
      obtain ⟨g, hg⟩ : ∃ g, g = ({ f.setSlot c.1 c.2
            (apply_kwargs
              { proto with uid := f.nextUid, tx := c.1, ty := c.2 } kwargs) with
          nextUid := f.nextUid + 1 }).set_populated c.1 c.2 true := ⟨_, rfl⟩
      rw [add_tile_succ_eq f proto n kwargs rng c g hcdef he hg]
      have hgp : g.populated = f.populated ++ [c] := by
        rw [hg, set_populated_true_append _ _ _ (by simpa using hcx)
          (by simpa using hcy) (by simpa using hcnot)]
        rfl
      have hgw : g.width = f.width := by
        rw [hg, set_populated_true_append _ _ _ (by simpa using hcx)
          (by simpa using hcy) (by simpa using hcnot)]
        rfl
      have hgh : g.height = f.height := by
        rw [hg, set_populated_true_append _ _ _ (by simpa using hcx)
          (by simpa using hcy) (by simpa using hcnot)]
        rfl
      have hge : g.empty_positions.length = f.empty_positions.length - 1 := by
        rw [empty_positions_of_append f g c hgw hgh hgp]
        rw [← List.Nodup.erase_eq_filter (nodup_empty_positions f)]
        exact List.length_erase_of_mem hc
      rw [ih, hgp, hge]
      simp only [List.length_append, List.length_singleton]
      omega
    · rw [Floor.add_tile, if_pos (by simp [he])]
      have : f.empty_positions.length = 0 := by
        simpa [List.isEmpty_iff, List.length_eq_zero] using he
      simp [this]

set_option maxRecDepth 200000 in
/-- C6: capacity exhaustion.  `add_tile` always performs exactly
`min count k` placements, where `k` is the number of empty cells when
the call starts: excess requests are dropped silently (the loop breaks,
nothing is raised) and the number of unplaced requests is observable to
the caller as `count` minus the growth of the populated registry.  In
particular, 200 requests into the empty 13 x 10 floor place exactly
130 tiles, and the caller observes the 70 dropped requests. -/
theorem capacity_exhaustion :
    (∀ (f : Floor) (proto : BoardTile) (kwargs : List Kwarg) (count : Nat)
      (rng : List Nat),
      (f.add_tile proto count kwargs rng).populated.length =
        f.populated.length + min count f.empty_positions.length) ∧
    (Floor.init 13 10).empty_positions.length = 130 ∧
    ∀ rng : List Nat,
      ((Floor.init 13 10).add_tile proto_wall 200 [] rng).populated.length = 130 ∧
      200 - (((Floor.init 13 10).add_tile proto_wall 200 [] rng).populated.length
        - (Floor.init 13 10).populated.length) = 70 := by
  refine ⟨fun f proto kwargs count rng =>
    add_tile_populated_length count f proto kwargs rng, by decide, fun rng => ?_⟩
  have h := add_tile_populated_length 200 (Floor.init 13 10) proto_wall [] rng
  have h2 : (Floor.init 13 10).empty_positions.length = 130 := by decide
  have h3 : (Floor.init 13 10).populated.length = 0 := rfl
  rw [h2, h3] at h
  norm_num at h
  rw [h, h3]
  norm_num

theorem slot_init (w h x y : Nat) (hx : x < w) (hy : y < h) :
    (Floor.init w h).slot x y = BoardTile.blank (y * w + x) := by
  show (((List.range h).map fun y =>
      (List.range w).map fun x => BoardTile.blank (y * w + x)).getD y []).getD x _ = _
  have h1 : ((List.range h).map fun y =>
      (List.range w).map fun x => BoardTile.blank (y * w + x)).getD y [] =
      (List.range w).map fun x => BoardTile.blank (y * w + x) := by
    rw [getD_of_lt _ _ _ (by simpa using hy), List.getElem_map, List.getElem_range]
  rw [h1, getD_of_lt _ _ _ (by simpa using hx), List.getElem_map, List.getElem_range]

theorem gridWF_init (w h : Nat) : GridWF (Floor.init w h) := by
  constructor
  · simp [Floor.init]
  · intro row hmem
    simp only [Floor.init, List.mem_map] at hmem
    obtain ⟨y, _, rfl⟩ := hmem
    simp [Floor.init]

theorem rowmajor_inj (w x y x' y' : Nat) (hx : x < w) (hx' : x' < w)
    (h : y * w + x = y' * w + x') : x = x' ∧ y = y' := by
  have hw : 0 < w := by omega
  have e1 : (y * w + x) % w = x := by
    rw [Nat.add_comm, Nat.add_mul_mod_self_right, Nat.mod_eq_of_lt hx]
  have e2 : (y' * w + x') % w = x' := by
    rw [Nat.add_comm, Nat.add_mul_mod_self_right, Nat.mod_eq_of_lt hx']
  have hxx : x = x' := by rw [← e1, ← e2, h]
  refine ⟨hxx, ?_⟩
  have : y * w = y' * w := by omega
  exact Nat.eq_of_mul_eq_mul_right hw this

theorem floorInv_init (w h : Nat) : FloorInv (Floor.init w h) := by
  refine ⟨gridWF_init w h, ?_, ?_, ?_, ?_, ?_, ?_, ?_⟩
  · intro c hc; cases hc
  · exact List.nodup_nil
  · intro x hx y hy
    rw [slot_init w h x y hx hy]
    simp [BoardTile.blank, Floor.init]
  · intro c hc; cases hc
  · intro x hx y hy x' hx' y' hy' hu
    rw [slot_init w h x y hx hy, slot_init w h x' y' hx' hy'] at hu
    simp only [BoardTile.blank] at hu
    obtain ⟨h1, h2⟩ := rowmajor_inj w x y x' y' hx hx' hu
    rw [h1, h2]
  · intro x hx y hy hfx
    rw [slot_init w h x y hx hy] at hfx
    simp [BoardTile.blank] at hfx
  · intro x hx y hy
    have hx' : x < w := hx
    have hy' : y < h := hy
    rw [slot_init w h x y hx' hy']
    show y * w + x < h * w
    calc y * w + x < y * w + w := by omega
    _ = (y + 1) * w := by ring
    _ ≤ h * w := Nat.mul_le_mul_right w (by omega)

theorem apply_kwarg_keeps (t : BoardTile) (k : Kwarg) :
    (apply_kwarg t k).id = t.id ∧ (apply_kwarg t k).tx = t.tx ∧
    (apply_kwarg t k).ty = t.ty ∧ (apply_kwarg t k).uid = t.uid := by
  cases k <;> exact ⟨rfl, rfl, rfl, rfl⟩

theorem apply_kwargs_keeps (kwargs : List Kwarg) : ∀ (t : BoardTile),
    (apply_kwargs t kwargs).id = t.id ∧ (apply_kwargs t kwargs).tx = t.tx ∧
    (apply_kwargs t kwargs).ty = t.ty ∧ (apply_kwargs t kwargs).uid = t.uid := by
  induction kwargs with
  | nil => intro t; exact ⟨rfl, rfl, rfl, rfl⟩
  | cons k ks ih =>
    intro t
    obtain ⟨h1, h2, h3, h4⟩ := ih (apply_kwarg t k)
    obtain ⟨g1, g2, g3, g4⟩ := apply_kwarg_keeps t k
    exact ⟨h1.trans g1, h2.trans g2, h3.trans g3, h4.trans g4⟩

theorem slot_place (f : Floor) (c : Nat × Nat) (t : BoardTile)
    (hwf : GridWF f) (hcx : c.1 < f.width) (hcy : c.2 < f.height)
    (x y : Nat) :
    (f.setSlot c.1 c.2 t).slot x y =
      if (x, y) = (c.1, c.2) then t else f.slot x y := by
  by_cases hxy : (x, y) = (c.1, c.2)
  · rw [if_pos hxy]
    simp only [Prod.mk.injEq] at hxy
    rw [hxy.1, hxy.2]
    exact slot_setSlot_self f c.1 c.2 t hwf hcx hcy
  · rw [if_neg hxy]
    exact slot_setSlot_ne f c.1 c.2 x y t hxy

theorem floorInv_place (f : Floor) (c : Nat × Nat) (t : BoardTile)
    (hInv : FloorInv f) (hc : c ∈ f.empty_positions)
    (htid : t.id ≠ TileID.Empty) (htx : t.tx = c.1) (hty : t.ty = c.2)
    (htuid : t.uid = f.nextUid) (g : Floor)
    (hg : g = ({ f.setSlot c.1 c.2 t with
        nextUid := f.nextUid + 1 }).set_populated c.1 c.2 true) :
    FloorInv g := by
  obtain ⟨hwf, hmem, hnd, hiff, hco, huid, hfix, hbound⟩ := hInv
  obtain ⟨hcx, hcy, hcnot⟩ := (mem_empty_positions f c).mp hc
  rw [set_populated_true_append _ _ _ (by simpa using hcx) (by simpa using hcy)
    (by simpa using hcnot)] at hg
  have hgw : g.width = f.width := by rw [hg]; try rfl
  have hgh : g.height = f.height := by rw [hg]; try rfl
  have hgp : g.populated = f.populated ++ [c] := by rw [hg]; try rfl
  have hgn : g.nextUid = f.nextUid + 1 := by rw [hg]; try rfl
  have hslot : ∀ x y : Nat, g.slot x y =
      if (x, y) = (c.1, c.2) then t else f.slot x y := by
    intro x y
    have hge : g.slot x y = (f.setSlot c.1 c.2 t).slot x y := by rw [hg]; try rfl
    rw [hge, slot_place f c t hwf hcx hcy x y]
  have hgwf : GridWF g := by
    have hswf := gridWF_setSlot f c.1 c.2 t hwf
    refine ⟨?_, ?_⟩
    · rw [hg]; exact hswf.1
    · rw [hg]; exact hswf.2
  refine ⟨hgwf, ?_, ?_, ?_, ?_, ?_, ?_, ?_⟩
  · intro d hd
    rw [hgp] at hd
    rw [hgw, hgh]
    rcases List.mem_append.mp hd with hd | hd
    · exact hmem d hd
    · rw [List.mem_singleton] at hd
      subst hd
      exact ⟨hcx, hcy⟩
  · rw [hgp]
    refine List.Nodup.append hnd (List.nodup_singleton c) ?_
    intro z hz1 hz2
    rw [List.mem_singleton] at hz2
    subst hz2
    exact hcnot hz1
  · intro x hx y hy
    rw [hgw] at hx
    rw [hgh] at hy
    rw [hgp, hslot x y, List.mem_append, List.mem_singleton]
    by_cases hxy : (x, y) = (c.1, c.2)
    · rw [if_pos hxy]
      have hceq : ((x, y) : Nat × Nat) = c := by
        rw [hxy]
      constructor
      · intro _; exact htid
      · intro _; exact Or.inr hceq
    · rw [if_neg hxy]
      have hcne : ¬ ((x, y) : Nat × Nat) = c := by
        intro hcon; exact hxy (by rw [hcon])
      constructor
      · intro hmem'
        rcases hmem' with hmem' | hmem'
        · exact (hiff x hx y hy).mp hmem'
        · exact absurd hmem' hcne
      · intro hne'
        exact Or.inl ((hiff x hx y hy).mpr hne')
  · intro d hd
    rw [hgp] at hd
    rcases List.mem_append.mp hd with hd | hd
    · rw [hslot d.1 d.2, if_neg (fun hcon => hcnot (by
        have : d = c := by
          have h1 : d.1 = c.1 := congrArg Prod.fst hcon
          have h2 : d.2 = c.2 := congrArg Prod.snd hcon
          exact Prod.ext h1 h2
        rw [← this]; exact hd))]
      exact hco d hd
    · rw [List.mem_singleton] at hd
      rw [hd, hslot c.1 c.2, if_pos rfl]
      exact ⟨htx, hty⟩
  · intro x hx y hy x' hx' y' hy' hu
    rw [hgw] at hx hx'
    rw [hgh] at hy hy'
    rw [hslot x y, hslot x' y'] at hu
    by_cases hA : (x, y) = (c.1, c.2)
    · rw [if_pos hA] at hu
      by_cases hB : (x', y') = (c.1, c.2)
      · rw [hA, hB]
      · rw [if_neg hB] at hu
        have := hbound x' hx' y' hy'
        rw [← hu, htuid] at this
        omega
    · rw [if_neg hA] at hu
      by_cases hB : (x', y') = (c.1, c.2)
      · rw [if_pos hB] at hu
        have := hbound x hx y hy
        rw [hu, htuid] at this
        omega
      · rw [if_neg hB] at hu
        exact huid x hx y hy x' hx' y' hy' hu
  · intro x hx y hy hfx
    rw [hgw] at hx
    rw [hgh] at hy
    rw [hgp, List.mem_append, List.mem_singleton]
    rw [hslot x y] at hfx
    by_cases hA : (x, y) = (c.1, c.2)
    · refine Or.inr ?_
      rw [hA]
    · rw [if_neg hA] at hfx
      exact Or.inl (hfix x hx y hy hfx)
  · intro x hx y hy
    rw [hgw] at hx
    rw [hgh] at hy
    rw [hgn, hslot x y]
    by_cases hA : (x, y) = (c.1, c.2)
    · rw [if_pos hA, htuid]
      omega
    · rw [if_neg hA]
      have := hbound x hx y hy
      omega

theorem floorInv_add_tile (count : Nat) :
    ∀ (f : Floor) (proto : BoardTile) (kwargs : List Kwarg) (rng : List Nat),
    FloorInv f → proto.id ≠ TileID.Empty →
    FloorInv (f.add_tile proto count kwargs rng) := by
  induction count with
  | zero => intro f proto kwargs rng hInv _; exact hInv
  | succ n ih =>
    intro f proto kwargs rng hInv hproto
    cases he : f.empty_positions.isEmpty
    · set c := f.empty_positions.getD (rng.headD 0 % f.empty_positions.length)
        (0, 0) with hcdef
      have hc : c ∈ f.empty_positions :=
        getD_mod_mem _ _ _ (by simpa [List.isEmpty_iff] using he)
      obtain ⟨g, hg⟩ : ∃ g, g = ({ f.setSlot c.1 c.2
            (apply_kwargs
              { proto with uid := f.nextUid, tx := c.1, ty := c.2 } kwargs) with
          nextUid := f.nextUid + 1 }).set_populated c.1 c.2 true := ⟨_, rfl⟩
      rw [add_tile_succ_eq f proto n kwargs rng c g hcdef he hg]
      obtain ⟨k1, k2, k3, k4⟩ := apply_kwargs_keeps kwargs
        { proto with uid := f.nextUid, tx := c.1, ty := c.2 }
      refine ih g proto kwargs rng.tail ?_ hproto
      exact floorInv_place f c _ hInv hc (by rw [k1]; exact hproto)
        (by rw [k2]) (by rw [k3]) (by rw [k4]) g hg
    · rw [Floor.add_tile, if_pos (by simp [he])]
      exact hInv

theorem mem_allSlots (f : Floor) (hwf : GridWF f) (t : BoardTile) :
    t ∈ f.allSlots ↔ ∃ x, x < f.width ∧ ∃ y, y < f.height ∧ f.slot x y = t := by
  obtain ⟨hlen, hrow⟩ := hwf
  unfold Floor.allSlots
  rw [List.mem_flatten]
  constructor
  · rintro ⟨row, hrowmem, htmem⟩
    obtain ⟨y, hy, rfl⟩ := List.mem_iff_getElem.mp hrowmem
    obtain ⟨x, hx, rfl⟩ := List.mem_iff_getElem.mp htmem
    refine ⟨x, ?_, y, ?_, ?_⟩
    · rw [← hrow _ (List.getElem_mem _)]; exact hx
    · omega
    · show (f.tiles.getD y []).getD x _ = _
      rw [getD_of_lt _ _ _ hy, getD_of_lt _ _ _ hx]
  · rintro ⟨x, hx, y, hy, rfl⟩
    have hyl : y < f.tiles.length := by omega
    have hxl : x < (f.tiles[y]).length := by
      rw [hrow _ (List.getElem_mem _)]; exact hx
    refine ⟨f.tiles[y], List.getElem_mem _, ?_⟩
    have : f.slot x y = f.tiles[y][x] := by
      show (f.tiles.getD y []).getD x _ = _
      rw [getD_of_lt _ _ _ hyl, getD_of_lt _ _ _ hxl]
    rw [this]
    exact List.getElem_mem _

theorem mem_all_tiles (f : Floor) (t : BoardTile) :
    t ∈ f.all_tiles ↔ ∃ c ∈ f.populated, f.slot c.1 c.2 = t := by
  unfold Floor.all_tiles
  rw [List.mem_map]

theorem all_tiles_stored (f : Floor) (hInv : FloorInv f) (t : BoardTile)
    (ht : t ∈ f.all_tiles) :
    Stored f t ∧ (t.tx, t.ty) ∈ f.populated ∧ UidOnlyAt f t := by
  obtain ⟨c, hc, rfl⟩ := (mem_all_tiles f t).mp ht
  have hs := stored_of_pop f c hInv hc
  have hu := uidOnlyAt_of_pop f c hInv hc
  obtain ⟨h1, h2⟩ := hInv.2.2.2.2.1 c hc
  refine ⟨hs, ?_, hu⟩
  rw [h1, h2]
  exact hc

theorem find_uid_spec (f : Floor) (u : Nat) (hInv : FloorInv f)
    (hp : PopUid f u) :
    ∃ t, f.find_uid u = some t ∧ t.uid = u ∧ Stored f t ∧
      (t.tx, t.ty) ∈ f.populated ∧ UidOnlyAt f t := by
  obtain ⟨c, hc, hcu⟩ := hp
  obtain ⟨hcx, hcy⟩ := hInv.2.1 c hc
  have hmem : f.slot c.1 c.2 ∈ f.allSlots :=
    (mem_allSlots f hInv.1 _).mpr ⟨c.1, hcx, c.2, hcy, rfl⟩
  have hfind : (f.find_uid u).isSome := by
    unfold Floor.find_uid
    rw [List.find?_isSome]
    exact ⟨_, hmem, by simpa using hcu⟩
  obtain ⟨t, ht⟩ := Option.isSome_iff_exists.mp hfind
  have htu : t.uid = u := by
    have := List.find?_some ht
    simpa using this
  have htmem : t ∈ f.allSlots := List.mem_of_find?_eq_some ht
  obtain ⟨x, hx, y, hy, hxy⟩ := (mem_allSlots f hInv.1 t).mp htmem
  have hcoord : (x, y) = c := by
    have h1 : (f.slot x y).uid = (f.slot c.1 c.2).uid := by
      rw [hxy, htu, hcu]
    have := hInv.2.2.2.2.2.1 x hx y hy c.1 hcx c.2 hcy h1
    exact this
  have hteq : t = f.slot c.1 c.2 := by
    rw [← hxy]
    rw [show x = c.1 from congrArg Prod.fst hcoord,
      show y = c.2 from congrArg Prod.snd hcoord]
  refine ⟨t, ht, htu, ?_, ?_, ?_⟩
  · rw [hteq]; exact stored_of_pop f c hInv hc
  · rw [hteq]
    obtain ⟨h1, h2⟩ := hInv.2.2.2.2.1 c hc
    rw [h1, h2]
    exact hc
  · rw [hteq]; exact uidOnlyAt_of_pop f c hInv hc

theorem inner_fold_spec (f : Floor) (ta : BoardTile) (hInv : FloorInv f)
    (hSta : Stored f ta) (hUta : UidOnlyAt f ta) :
    ∀ (l : List BoardTile) (acc : InnerScan),
    (∀ tb ∈ l, tb ∈ f.all_tiles) → acc.floor = f →
    (l.foldl (inner_step ta) acc).floor = f ∧
    acc.best_satisfaction ≤ (l.foldl (inner_step ta) acc).best_satisfaction ∧
    (((l.foldl (inner_step ta) acc).happiest_replacement =
        acc.happiest_replacement ∧
      (l.foldl (inner_step ta) acc).best_satisfaction =
        acc.best_satisfaction) ∨
     ∃ tb, tb ∈ f.all_tiles ∧ tb.fixed = false ∧ ta.uid ≠ tb.uid ∧
       (l.foldl (inner_step ta) acc).happiest_replacement = some tb ∧
       (l.foldl (inner_step ta) acc).best_satisfaction =
         happiness (f.swap_tiles ta tb).1) := by
  intro l
  induction l with
  | nil =>
    intro acc _ hacc
    exact ⟨hacc, le_refl _, Or.inl ⟨rfl, rfl⟩⟩
  | cons tb rest ih =>
    intro acc hmem hacc
    have htbmem : tb ∈ f.all_tiles := hmem tb (List.mem_cons_self _ _)
    have hrest : ∀ b ∈ rest, b ∈ f.all_tiles :=
      fun b hb => hmem b (List.mem_cons_of_mem _ hb)
    rw [List.foldl_cons]
    by_cases hskip : (tb.fixed || (ta.uid == tb.uid)) = true
    · have hstep : inner_step ta acc tb = acc := by
        unfold inner_step
        rw [if_pos hskip]
      rw [hstep]
      exact ih acc hrest hacc
    · have hguards : tb.fixed = false ∧ (ta.uid == tb.uid) = false := by
        constructor
        · cases h1 : tb.fixed
          · rfl
          · exact absurd (show (tb.fixed || (ta.uid == tb.uid)) = true by
              simp [h1]) hskip
        · cases h2 : (ta.uid == tb.uid)
          · rfl
          · exact absurd (show (tb.fixed || (ta.uid == tb.uid)) = true by
              simp [h2]) hskip
      have hne : ta.uid ≠ tb.uid := by simpa using hguards.2
      obtain ⟨hStb, hPtb, hUtb⟩ := all_tiles_stored f hInv tb htbmem
      have hround := swap_tiles_roundtrip f ta tb hInv.1 hSta hStb hUta hUtb hne
      have hstep : inner_step ta acc tb =
          if happiness (f.swap_tiles ta tb).1 ≥ acc.best_satisfaction then
            ⟨f, happiness (f.swap_tiles ta tb).1, some tb⟩
          else { acc with floor := f } := by
        unfold inner_step
        rw [if_neg hskip, hacc]
        have h2 : ((f.swap_tiles ta tb).1.swap_tiles (f.swap_tiles ta tb).2.1
            (f.swap_tiles ta tb).2.2).1 = f := by rw [hround]
        by_cases hge : happiness (f.swap_tiles ta tb).1 ≥ acc.best_satisfaction
        · rw [if_pos hge, if_pos hge, h2]
        · rw [if_neg hge, if_neg hge, h2]
      rw [hstep]
      by_cases hge : happiness (f.swap_tiles ta tb).1 ≥ acc.best_satisfaction
      · rw [if_pos hge]
        obtain ⟨r1, r2, r3⟩ := ih ⟨f, happiness (f.swap_tiles ta tb).1, some tb⟩
          hrest rfl
        refine ⟨r1, le_trans hge r2, ?_⟩
        rcases r3 with ⟨e1, e2⟩ | good
        · exact Or.inr ⟨tb, htbmem, hguards.1, hne, e1, e2⟩
        · exact Or.inr good
      · rw [if_neg hge]
        obtain ⟨r1, r2, r3⟩ := ih { acc with floor := f } hrest rfl
        exact ⟨r1, r2, r3⟩

theorem process_anchor_of_fixed (f : Floor) (u : Nat) (ta : BoardTile)
    (hfind : f.find_uid u = some ta) (hfx : ta.fixed = true) :
    f.process_anchor u = f := by
  unfold Floor.process_anchor
  split
  · rfl
  · rename_i tile_a heq
    rw [hfind] at heq
    injection heq with h
    subst h
    rw [if_pos hfx]

theorem process_anchor_of_repl_none (f : Floor) (u : Nat) (ta : BoardTile)
    (hfind : f.find_uid u = some ta) (hfx : ta.fixed = false)
    (hrepl : (f.all_tiles.foldl (inner_step ta)
      { floor := f, best_satisfaction := f.satisfaction
        happiest_replacement := none }).happiest_replacement = none) :
    f.process_anchor u = (f.all_tiles.foldl (inner_step ta)
      { floor := f, best_satisfaction := f.satisfaction
        happiest_replacement := none }).floor := by
  unfold Floor.process_anchor
  split
  · rename_i heq
    rw [hfind] at heq
    cases heq
  · rename_i tile_a heq
    rw [hfind] at heq
    injection heq with h
    subst h
    rw [if_neg (by simp [hfx])]
    dsimp only
    split
    · rfl
    · rename_i tb' heq2
      rw [hrepl] at heq2
      cases heq2

theorem process_anchor_of_commit (f : Floor) (u : Nat) (ta tb : BoardTile)
    (hfind : f.find_uid u = some ta) (hfx : ta.fixed = false)
    (hrepl : (f.all_tiles.foldl (inner_step ta)
      { floor := f, best_satisfaction := f.satisfaction
        happiest_replacement := none }).happiest_replacement = some tb) :
    f.process_anchor u =
      { ((f.all_tiles.foldl (inner_step ta)
          { floor := f, best_satisfaction := f.satisfaction
            happiest_replacement := none }).floor.swap_tiles ta tb).1 with
        satisfaction := (f.all_tiles.foldl (inner_step ta)
          { floor := f, best_satisfaction := f.satisfaction
            happiest_replacement := none }).best_satisfaction } := by
  unfold Floor.process_anchor
  split
  · rename_i heq
    rw [hfind] at heq
    cases heq
  · rename_i tile_a heq
    rw [hfind] at heq
    injection heq with h
    subst h
    rw [if_neg (by simp [hfx])]
    dsimp only
    split
    · rename_i heq2
      rw [hrepl] at heq2
      cases heq2
    · rename_i tb' heq2
      rw [hrepl] at heq2
      injection heq2 with h2
      subst h2
      rfl

theorem process_anchor_spec (f : Floor) (u : Nat) (hInv : FloorInv f)
    (hu : PopUid f u) :
    FloorInv (f.process_anchor u) ∧
    (f.process_anchor u).width = f.width ∧
    (f.process_anchor u).height = f.height ∧
    (f.process_anchor u).populated = f.populated ∧
    f.satisfaction ≤ (f.process_anchor u).satisfaction ∧
    (happiness f ≤ f.satisfaction →
      happiness f ≤ happiness (f.process_anchor u) ∧
      happiness (f.process_anchor u) ≤ (f.process_anchor u).satisfaction) ∧
    (∀ x, x < f.width → ∀ y, y < f.height → (f.slot x y).fixed = true →
      (f.process_anchor u).slot x y = f.slot x y) ∧
    (∀ u', PopUid f u' → PopUid (f.process_anchor u) u') := by
  obtain ⟨ta, hfind, htu, hSta, hPta, hUta⟩ := find_uid_spec f u hInv hu
  by_cases hfx : ta.fixed = true
  · rw [process_anchor_of_fixed f u ta hfind hfx]
    exact ⟨hInv, rfl, rfl, rfl, le_refl _, fun h => ⟨le_refl _, h⟩,
      fun _ _ _ _ _ => rfl, fun _ h => h⟩
  · have hfx' : ta.fixed = false := by
      cases h : ta.fixed
      · rfl
      · exact absurd h hfx
    obtain ⟨hfl, hbest, halt⟩ := inner_fold_spec f ta hInv hSta hUta
      f.all_tiles ⟨f, f.satisfaction, none⟩ (fun _ h => h) rfl
    rcases halt with ⟨hrepl, hbeq⟩ | ⟨tb, htbmem, htbfix, hne, hrepl, hbeq⟩
    · rw [process_anchor_of_repl_none f u ta hfind hfx' hrepl, hfl]
      exact ⟨hInv, rfl, rfl, rfl, le_refl _, fun h => ⟨le_refl _, h⟩,
        fun _ _ _ _ _ => rfl, fun _ h => h⟩
    · obtain ⟨hStb, hPtb, hUtb⟩ := all_tiles_stored f hInv tb htbmem
      rw [process_anchor_of_commit f u ta tb hfind hfx' hrepl, hfl]
      have hpa : (ta.tx, ta.ty) ∈ f.populated := hPta
      have hsa : f.slot ta.tx ta.ty = ta := hSta.2.2
      have hsb : f.slot tb.tx tb.ty = tb := hStb.2.2
      have hInv3 : FloorInv (f.swap_tiles ta tb).1 :=
        floorInv_swap f ta tb hInv hpa hPtb hsa hsb hne
      have hspec := swap_slot_spec f ta tb hInv.1 hSta hStb hUta hUtb hne
      refine ⟨hInv3, rfl, rfl, rfl, ?_, ?_, ?_, ?_⟩
      · exact hbest
      · intro hgood
        have h1 : happiness ({ (f.swap_tiles ta tb).1 with
            satisfaction := (f.all_tiles.foldl (inner_step ta)
              { floor := f, best_satisfaction := f.satisfaction
                happiest_replacement := none }).best_satisfaction } : Floor) =
            (f.all_tiles.foldl (inner_step ta)
              { floor := f, best_satisfaction := f.satisfaction
                happiest_replacement := none }).best_satisfaction := by
          rw [show happiness ({ (f.swap_tiles ta tb).1 with
            satisfaction := (f.all_tiles.foldl (inner_step ta)
              { floor := f, best_satisfaction := f.satisfaction
                happiest_replacement := none }).best_satisfaction } : Floor) =
            happiness (f.swap_tiles ta tb).1 from rfl]
          rw [hbeq]
        constructor
        · rw [h1]; exact le_trans hgood hbest
        · rw [h1]
      · intro x hx y hy hfix1
        rw [show ({ (f.swap_tiles ta tb).1 with
            satisfaction := (f.all_tiles.foldl (inner_step ta)
              { floor := f, best_satisfaction := f.satisfaction
                happiest_replacement := none }).best_satisfaction } : Floor).slot x y =
            (f.swap_tiles ta tb).1.slot x y from rfl]
        rw [hspec x y hx hy]
        by_cases hA : (x, y) = (ta.tx, ta.ty)
        · exfalso
          have hxy : f.slot x y = ta := by
            rw [show x = ta.tx from congrArg Prod.fst hA,
              show y = ta.ty from congrArg Prod.snd hA, hsa]
          rw [hxy, hfx'] at hfix1
          cases hfix1
        · rw [if_neg hA]
          by_cases hB : (x, y) = (tb.tx, tb.ty)
          · exfalso
            have hxy : f.slot x y = tb := by
              rw [show x = tb.tx from congrArg Prod.fst hB,
                show y = tb.ty from congrArg Prod.snd hB, hsb]
            rw [hxy, htbfix] at hfix1
            cases hfix1
          · rw [if_neg hB]
      · intro u' hu'
        obtain ⟨c, hc, hcu⟩ := hu'
        obtain ⟨hcx, hcy⟩ := hInv.2.1 c hc
        have hslots : ∀ x y : Nat, ({ (f.swap_tiles ta tb).1 with
            satisfaction := (f.all_tiles.foldl (inner_step ta)
              { floor := f, best_satisfaction := f.satisfaction
                happiest_replacement := none }).best_satisfaction } : Floor).slot x y =
            (f.swap_tiles ta tb).1.slot x y := fun _ _ => rfl
        by_cases hA : c = (ta.tx, ta.ty)
        · refine ⟨(tb.tx, tb.ty), hPtb, ?_⟩
          rw [hslots, hspec tb.tx tb.ty hStb.1 hStb.2.1,
            if_neg (fun hcon => hne (by
              have h1 : tb.tx = ta.tx := congrArg Prod.fst hcon
              have h2 : tb.ty = ta.ty := congrArg Prod.snd hcon
              rw [← hsa, ← h1, ← h2, hsb])), if_pos rfl]
          rw [← hcu, hA, hsa]
        · by_cases hB : c = (tb.tx, tb.ty)
          · refine ⟨(ta.tx, ta.ty), hPta, ?_⟩
            rw [hslots, hspec ta.tx ta.ty hSta.1 hSta.2.1, if_pos rfl]
            rw [← hcu, hB, hsb]
          · refine ⟨c, hc, ?_⟩
            rw [hslots, hspec c.1 c.2 hcx hcy,
              if_neg (fun hcon => hA (by
                have h1 : c.1 = ta.tx := congrArg Prod.fst hcon
                have h2 : c.2 = ta.ty := congrArg Prod.snd hcon
                exact Prod.ext h1 h2)),
              if_neg (fun hcon => hB (by
                have h1 : c.1 = tb.tx := congrArg Prod.fst hcon
                have h2 : c.2 = tb.ty := congrArg Prod.snd hcon
                exact Prod.ext h1 h2))]
            exact hcu

theorem anchors_fold_spec (l : List Nat) :
    ∀ (g : Floor), FloorInv g → (∀ u ∈ l, PopUid g u) →
    FloorInv (l.foldl Floor.process_anchor g) ∧
    (l.foldl Floor.process_anchor g).width = g.width ∧
    (l.foldl Floor.process_anchor g).height = g.height ∧
    (l.foldl Floor.process_anchor g).populated = g.populated ∧
    g.satisfaction ≤ (l.foldl Floor.process_anchor g).satisfaction ∧
    (happiness g ≤ g.satisfaction →
      happiness g ≤ happiness (l.foldl Floor.process_anchor g) ∧
      happiness (l.foldl Floor.process_anchor g) ≤
        (l.foldl Floor.process_anchor g).satisfaction) ∧
    (∀ x, x < g.width → ∀ y, y < g.height → (g.slot x y).fixed = true →
      (l.foldl Floor.process_anchor g).slot x y = g.slot x y) ∧
    (∀ u', PopUid g u' → PopUid (l.foldl Floor.process_anchor g) u') := by
  induction l with
  | nil =>
    intro g hInv _
    exact ⟨hInv, rfl, rfl, rfl, le_refl _, fun h => ⟨le_refl _, h⟩,
      fun _ _ _ _ _ => rfl, fun _ h => h⟩
  | cons u l ih =>
    intro g hInv hus
    obtain ⟨s1, s2, s3, s4, s5, s6, s7, s8⟩ :=
      process_anchor_spec g u hInv (hus u (List.mem_cons_self _ _))
    obtain ⟨r1, r2, r3, r4, r5, r6, r7, r8⟩ := ih (g.process_anchor u) s1
      (fun v hv => s8 v (hus v (List.mem_cons_of_mem _ hv)))
    rw [List.foldl_cons]
    refine ⟨r1, r2.trans s2, r3.trans s3, r4.trans s4, le_trans s5 r5, ?_, ?_, ?_⟩
    · intro hgood
      obtain ⟨h1, h2⟩ := s6 hgood
      obtain ⟨h3, h4⟩ := r6 h2
      exact ⟨le_trans h1 h3, h4⟩
    · intro x hx y hy hfix1
      have e1 := s7 x hx y hy hfix1
      have e2 := r7 x (by rw [s2]; exact hx) y (by rw [s3]; exact hy)
        (by rw [e1]; exact hfix1)
      rw [e2, e1]
    · intro u' hu'
      exact r8 u' (s8 u' hu')

theorem run_pass_anchor_popuids (f : Floor) :
    ∀ u ∈ (f.all_tiles).map (fun t => t.uid), PopUid f u := by
  intro u hu
  obtain ⟨t, htmem, rfl⟩ := List.mem_map.mp hu
  obtain ⟨c, hc, rfl⟩ := (mem_all_tiles f t).mp htmem
  exact ⟨c, hc, rfl⟩

theorem run_pass_spec (f : Floor) (rng : List Nat) (hInv : FloorInv f) :
    FloorInv (f.run_pass rng).1 ∧
    (f.run_pass rng).1.width = f.width ∧
    (f.run_pass rng).1.height = f.height ∧
    (f.run_pass rng).1.populated = f.populated ∧
    f.satisfaction ≤ (f.run_pass rng).1.satisfaction ∧
    (happiness f ≤ f.satisfaction →
      happiness f ≤ happiness (f.run_pass rng).1 ∧
      happiness (f.run_pass rng).1 ≤ (f.run_pass rng).1.satisfaction) ∧
    (∀ x, x < f.width → ∀ y, y < f.height → (f.slot x y).fixed = true →
      (f.run_pass rng).1.slot x y = f.slot x y) ∧
    (∀ u', PopUid f u' → PopUid (f.run_pass rng).1 u') := by
  have hrw : (f.run_pass rng).1 =
      ((f.all_tiles).map (fun t => t.uid)).foldl Floor.process_anchor f := rfl
  rw [hrw]
  exact anchors_fold_spec _ f hInv (run_pass_anchor_popuids f)

theorem fixedify_self (r : BoardTile) (h : r.fixed = true) :
    { r with fixed := true } = r := by
  cases r
  simp_all

theorem fold_fix_slot (l : List (Nat × Nat)) :
    ∀ (g : Floor), GridWF g → (∀ c ∈ l, c.1 < g.width ∧ c.2 < g.height) →
    GridWF (l.foldl (fun h c =>
      h.setSlot c.1 c.2 { h.slot c.1 c.2 with fixed := true }) g) ∧
    (l.foldl (fun h c =>
      h.setSlot c.1 c.2 { h.slot c.1 c.2 with fixed := true }) g).width = g.width ∧
    (l.foldl (fun h c =>
      h.setSlot c.1 c.2 { h.slot c.1 c.2 with fixed := true }) g).height = g.height ∧
    (l.foldl (fun h c =>
      h.setSlot c.1 c.2 { h.slot c.1 c.2 with fixed := true }) g).populated = g.populated ∧
    (l.foldl (fun h c =>
      h.setSlot c.1 c.2 { h.slot c.1 c.2 with fixed := true }) g).satisfaction = g.satisfaction ∧
    (l.foldl (fun h c =>
      h.setSlot c.1 c.2 { h.slot c.1 c.2 with fixed := true }) g).nextUid = g.nextUid ∧
    ∀ x y : Nat, (l.foldl (fun h c =>
      h.setSlot c.1 c.2 { h.slot c.1 c.2 with fixed := true }) g).slot x y =
      (if (x, y) ∈ l then { g.slot x y with fixed := true } else g.slot x y) := by
  induction l with
  | nil =>
    intro g hwf _
    refine ⟨hwf, rfl, rfl, rfl, rfl, rfl, ?_⟩
    intro x y
    rw [if_neg (by simp)]
    rfl
  | cons c l ih =>
    intro g hwf hmem
    obtain ⟨hcx, hcy⟩ := hmem c (List.mem_cons_self _ _)
    have hwf1 : GridWF (g.setSlot c.1 c.2 { g.slot c.1 c.2 with fixed := true }) :=
      gridWF_setSlot _ _ _ _ hwf
    obtain ⟨r1, r2, r3, r4, r5, r6, r7⟩ := ih
      (g.setSlot c.1 c.2 { g.slot c.1 c.2 with fixed := true }) hwf1
      (fun d hd => hmem d (List.mem_cons_of_mem _ hd))
    rw [List.foldl_cons]
    refine ⟨r1, r2, r3, r4, r5, r6, ?_⟩
    intro x y
    rw [r7 x y]
    have hslot1 : (g.setSlot c.1 c.2
        { g.slot c.1 c.2 with fixed := true }).slot x y =
        if (x, y) = (c.1, c.2) then { g.slot x y with fixed := true }
        else g.slot x y := by
      rw [slot_place g c _ hwf hcx hcy x y]
      by_cases hxy : (x, y) = (c.1, c.2)
      · rw [if_pos hxy, if_pos hxy]
        rw [show x = c.1 from congrArg Prod.fst hxy,
          show y = c.2 from congrArg Prod.snd hxy]
      · rw [if_neg hxy, if_neg hxy]
    rw [hslot1]
    by_cases hin : (x, y) ∈ l
    · rw [if_pos hin, if_pos (List.mem_cons_of_mem _ hin)]
      by_cases hxy : (x, y) = (c.1, c.2)
      · rw [if_pos hxy]
      · rw [if_neg hxy]
    · rw [if_neg hin]
      by_cases hxy : (x, y) = (c.1, c.2)
      · rw [if_pos hxy, if_pos (by rw [hxy]; exact List.mem_cons_self _ _)]
      · rw [if_neg hxy, if_neg (by
          intro hcon
          rcases List.mem_cons.mp hcon with hcon | hcon
          · exact hxy hcon
          · exact hin hcon)]

theorem fix_tiles_spec (f : Floor) (hInv : FloorInv f) :
    FloorInv f.fix_tiles ∧
    f.fix_tiles.width = f.width ∧ f.fix_tiles.height = f.height ∧
    f.fix_tiles.populated = f.populated ∧
    f.fix_tiles.satisfaction = f.satisfaction ∧
    ∀ x y : Nat, f.fix_tiles.slot x y =
      (if (x, y) ∈ f.populated then { f.slot x y with fixed := true }
       else f.slot x y) := by
  obtain ⟨hwf, hmem, hnd, hiff, hco, huid, hfix, hbound⟩ := hInv
  obtain ⟨r1, r2, r3, r4, r5, r6, r7⟩ := fold_fix_slot f.populated f hwf hmem
  have hft : f.fix_tiles = f.populated.foldl (fun h c =>
      h.setSlot c.1 c.2 { h.slot c.1 c.2 with fixed := true }) f := rfl
  rw [hft]
  refine ⟨?_, r2, r3, r4, r5, r7⟩
  refine ⟨r1, ?_, ?_, ?_, ?_, ?_, ?_, ?_⟩
  · rw [r4, r2, r3]; exact hmem
  · rw [r4]; exact hnd
  · intro x hx y hy
    rw [r2] at hx
    rw [r3] at hy
    rw [r4, r7 x y]
    by_cases hin : (x, y) ∈ f.populated
    · rw [if_pos hin]
      constructor
      · intro _
        show (f.slot x y).id ≠ TileID.Empty
        exact (hiff x hx y hy).mp hin
      · intro _; exact hin
    · rw [if_neg hin]
      exact hiff x hx y hy
  · intro c hc
    rw [r4] at hc
    rw [r7 c.1 c.2, if_pos hc]
    exact hco c hc
  · intro x hx y hy x' hx' y' hy' hu
    rw [r2] at hx hx'
    rw [r3] at hy hy'
    rw [r7 x y, r7 x' y'] at hu
    have e1 : ∀ a b : Nat, ((if (a, b) ∈ f.populated then
        { f.slot a b with fixed := true } else f.slot a b)).uid =
        (f.slot a b).uid := by
      intro a b
      by_cases h : (a, b) ∈ f.populated
      · rw [if_pos h]
      · rw [if_neg h]
    rw [e1, e1] at hu
    exact huid x hx y hy x' hx' y' hy' hu
  · intro x hx y hy hfx1
    rw [r2] at hx
    rw [r3] at hy
    rw [r4]
    rw [r7 x y] at hfx1
    by_cases hin : (x, y) ∈ f.populated
    · exact hin
    · rw [if_neg hin] at hfx1
      exact hfix x hx y hy hfx1
  · intro x hx y hy
    rw [r2] at hx
    rw [r3] at hy
    rw [r6, r7 x y]
    by_cases hin : (x, y) ∈ f.populated
    · rw [if_pos hin]
      exact hbound x hx y hy
    · rw [if_neg hin]
      exact hbound x hx y hy

theorem post_process_spec (f : Floor) (rng : List Nat) (hInv : FloorInv f) :
    FloorInv (f.post_process_layer rng) ∧
    (f.post_process_layer rng).width = f.width ∧
    (f.post_process_layer rng).height = f.height ∧
    (f.post_process_layer rng).populated = f.populated ∧
    (∀ x, x < f.width → ∀ y, y < f.height → (f.slot x y).fixed = true →
      (f.post_process_layer rng).slot x y = f.slot x y) := by
  have hInv0 : FloorInv (if f.satisfaction == 0
      then { f with satisfaction := happiness f } else f) := by
    by_cases h : f.satisfaction == 0
    · rw [if_pos h]; exact hInv
    · rw [if_neg h]; exact hInv
  obtain ⟨g0, hg0⟩ : ∃ g0, g0 = (if f.satisfaction == 0
      then { f with satisfaction := happiness f } else f) := ⟨_, rfl⟩
  have hg0w : g0.width = f.width := by
    rw [hg0]; by_cases h : f.satisfaction == 0
    · rw [if_pos h]
    · rw [if_neg h]
  have hg0h : g0.height = f.height := by
    rw [hg0]; by_cases h : f.satisfaction == 0
    · rw [if_pos h]
    · rw [if_neg h]
  have hg0p : g0.populated = f.populated := by
    rw [hg0]; by_cases h : f.satisfaction == 0
    · rw [if_pos h]
    · rw [if_neg h]
  have hg0s : ∀ x y : Nat, g0.slot x y = f.slot x y := by
    intro x y
    rw [hg0]; by_cases h : f.satisfaction == 0
    · rw [if_pos h]; rfl
    · rw [if_neg h]
  have hg0i : FloorInv g0 := by rw [hg0]; exact hInv0
  have hpp : f.post_process_layer rng =
      (((((g0.run_pass rng).1.run_pass (g0.run_pass rng).2).1.run_pass
        ((g0.run_pass rng).1.run_pass (g0.run_pass rng).2).2).1.run_pass
        (((g0.run_pass rng).1.run_pass (g0.run_pass rng).2).1.run_pass
        ((g0.run_pass rng).1.run_pass (g0.run_pass rng).2).2).2).1).fix_tiles := by
    rw [hg0]
    rfl
  obtain ⟨p11, p12, p13, p14, _, _, p17, _⟩ := run_pass_spec g0 rng hg0i
  obtain ⟨p21, p22, p23, p24, _, _, p27, _⟩ :=
    run_pass_spec (g0.run_pass rng).1 (g0.run_pass rng).2 p11
  obtain ⟨p31, p32, p33, p34, _, _, p37, _⟩ :=
    run_pass_spec ((g0.run_pass rng).1.run_pass (g0.run_pass rng).2).1
      ((g0.run_pass rng).1.run_pass (g0.run_pass rng).2).2 p21
  obtain ⟨p41, p42, p43, p44, _, _, p47, _⟩ :=
    run_pass_spec (((g0.run_pass rng).1.run_pass (g0.run_pass rng).2).1.run_pass
      ((g0.run_pass rng).1.run_pass (g0.run_pass rng).2).2).1
      (((g0.run_pass rng).1.run_pass (g0.run_pass rng).2).1.run_pass
      ((g0.run_pass rng).1.run_pass (g0.run_pass rng).2).2).2 p31
  obtain ⟨q1, q2, q3, q4, _, q6⟩ := fix_tiles_spec _ p41
  rw [hpp]
  refine ⟨q1, ?_, ?_, ?_, ?_⟩
  · rw [q2, p42, p32, p22, p12, hg0w]
  · rw [q3, p43, p33, p23, p13, hg0h]
  · rw [q4, p44, p34, p24, p14, hg0p]
  · intro x hx y hy hfx1
    have hx0 : x < g0.width := by rw [hg0w]; exact hx
    have hy0 : y < g0.height := by rw [hg0h]; exact hy
    have e1 := p17 x hx0 y hy0 (by rw [hg0s]; exact hfx1)
    have e2 := p27 x (by rw [p12]; exact hx0) y (by rw [p13]; exact hy0)
      (by rw [e1, hg0s]; exact hfx1)
    have e3 := p37 x (by rw [p22, p12]; exact hx0) y
      (by rw [p23, p13]; exact hy0)
      (by rw [e2, e1, hg0s]; exact hfx1)
    have e4 := p47 x (by rw [p32, p22, p12]; exact hx0) y
      (by rw [p33, p23, p13]; exact hy0)
      (by rw [e3, e2, e1, hg0s]; exact hfx1)
    rw [q6 x y, p44, p34, p24, p14, hg0p]
    by_cases hin : (x, y) ∈ f.populated
    · rw [if_pos hin, e4, e3, e2, e1, hg0s]
      exact fixedify_self _ hfx1
    · rw [if_neg hin, e4, e3, e2, e1, hg0s]

theorem reachable_inv (f : Floor) (h : Reachable f) : FloorInv f := by
  induction h with
  | init w h => exact floorInv_init w h
  | add proto count kwargs rng hr hproto ih =>
    exact floorInv_add_tile count _ proto kwargs rng ih hproto
  | swap a b hr hpa hpb hsa hsb hne ih =>
    exact floorInv_swap _ a b ih hpa hpb hsa hsb hne
  | post rng hr ih => exact (post_process_spec _ rng ih).1

theorem add_tile_keeps_populated_slot (count : Nat) :
    ∀ (f : Floor) (proto : BoardTile) (kwargs : List Kwarg) (rng : List Nat)
    (x y : Nat), (x, y) ∈ f.populated →
    (f.add_tile proto count kwargs rng).slot x y = f.slot x y ∧
    (x, y) ∈ (f.add_tile proto count kwargs rng).populated := by
  induction count with
  | zero => intro f proto kwargs rng x y hpop; exact ⟨rfl, hpop⟩
  | succ n ih =>
    intro f proto kwargs rng x y hpop
    cases he : f.empty_positions.isEmpty
    · set c := f.empty_positions.getD (rng.headD 0 % f.empty_positions.length)
        (0, 0) with hcdef
      have hc : c ∈ f.empty_positions :=
        getD_mod_mem _ _ _ (by simpa [List.isEmpty_iff] using he)
      obtain ⟨hcx, hcy, hcnot⟩ := (mem_empty_positions f _).mp hc
      obtain ⟨g, hg⟩ : ∃ g, g = ({ f.setSlot c.1 c.2
            (apply_kwargs
              { proto with uid := f.nextUid, tx := c.1, ty := c.2 } kwargs) with
          nextUid := f.nextUid + 1 }).set_populated c.1 c.2 true := ⟨_, rfl⟩
      rw [add_tile_succ_eq f proto n kwargs rng c g hcdef he hg]
      rw [set_populated_true_append _ _ _ (by simpa using hcx)
        (by simpa using hcy) (by simpa using hcnot)] at hg
      have hne : ((x, y) : Nat × Nat) ≠ c := by
        intro hcon
        rw [← hcon] at hcnot
        exact hcnot hpop
      have hgp : (x, y) ∈ g.populated := by
        rw [hg]
        show (x, y) ∈ f.populated ++ [c]
        exact List.mem_append.mpr (Or.inl hpop)
      have hgs : g.slot x y = f.slot x y := by
        rw [hg]
        show (f.setSlot c.1 c.2 _).slot x y = f.slot x y
        exact slot_setSlot_ne f c.1 c.2 x y _ (by
          intro hcon
          exact hne (by
            have h1 : x = c.1 := congrArg Prod.fst hcon
            have h2 : y = c.2 := congrArg Prod.snd hcon
            exact Prod.ext h1 h2))
      obtain ⟨ih1, ih2⟩ := ih g proto kwargs rng.tail x y hgp
      exact ⟨ih1.trans hgs, ih2⟩
    · rw [Floor.add_tile, if_pos (by simp [he])]
      exact ⟨rfl, hpop⟩

/-- C4: on every reachable floor — reachability covering construction,
`add_tile` with non-empty catalog prototypes, the engine's
`_swap_tiles` calls and `post_process_layer` — the populated registry
names exactly the coordinates whose slot holds a non-empty tile. -/
theorem populated_matches_nonempty_slots (f : Floor) (h : Reachable f) :
    ∀ x, x < f.width → ∀ y, y < f.height →
    ((x, y) ∈ f.populated ↔ (f.slot x y).id ≠ TileID.Empty) :=
  fun x hx y hy => (reachable_inv f h).2.2.2.1 x hx y hy

set_option maxRecDepth 1000000 in
/-- Witness for `populated_matches_nonempty_slots` on the reachable
floor `floor_m2`, at the chest's coordinate (0, 2). -/
theorem populated_matches_nonempty_slots_witness :
    (0, 2) ∈ floor_m2.populated ↔ (floor_m2.slot 0 2).id ≠ TileID.Empty :=
  populated_matches_nonempty_slots floor_m2
    (Reachable.add proto_chest 1 [] [10]
      (Reachable.add proto_minotaur 1 [] [12] (Reachable.init 5 5) (by decide))
      (by decide))
    0 (by decide) 2 (by decide)

/-- C5: fixed tiles are immutable.  On an invariant-respecting floor
(every reachable floor satisfies `FloorInv`), once a slot holds a tile
with `fixed = true`, a subsequent `add_tile` call (any prototype,
count, overrides and draws) and a subsequent `post_process_layer` call
both leave that slot's record — its coordinates, its identity and the
tile itself — exactly unchanged. -/
theorem fixed_tiles_frozen (f : Floor) (hInv : FloorInv f) (x y : Nat)
    (hx : x < f.width) (hy : y < f.height)
    (hfx : (f.slot x y).fixed = true) :
    (∀ (proto : BoardTile) (count : Nat) (kwargs : List Kwarg)
      (rng : List Nat),
      (f.add_tile proto count kwargs rng).slot x y = f.slot x y) ∧
    (∀ rng : List Nat, (f.post_process_layer rng).slot x y = f.slot x y) := by
  obtain ⟨hwf, hmem, hnd, hiff, hco, huid, hfix, hbound⟩ := hInv
  have hpop : (x, y) ∈ f.populated := hfix x hx y hy hfx
  constructor
  · intro proto count kwargs rng
    exact (add_tile_keeps_populated_slot count f proto kwargs rng x y hpop).1
  · intro rng
    exact (post_process_spec f rng
      ⟨hwf, hmem, hnd, hiff, hco, huid, hfix, hbound⟩).2.2.2.2 x hx y hy hfx

set_option maxRecDepth 2000000 in
/-- Witness for `fixed_tiles_frozen`: the wall fixed at (0, 0) of
`floor_w5` survives a further `add_tile` and a further
`post_process_layer` unchanged. -/
theorem fixed_tiles_frozen_witness :
    FloorInv floor_w5 ∧ (floor_w5.slot 0 0).fixed = true ∧
    (floor_w5.add_tile proto_chest 1 [] [7]).slot 0 0 = floor_w5.slot 0 0 ∧
    (floor_w5.post_process_layer []).slot 0 0 = floor_w5.slot 0 0 := by
  refine ⟨by decide, by decide, ?_, ?_⟩
  · exact (fixed_tiles_frozen floor_w5 (by decide) 0 0 (by decide) (by decide)
      (by decide)).1 proto_chest 1 [] [7]
  · exact (fixed_tiles_frozen floor_w5 (by decide) 0 0 (by decide) (by decide)
      (by decide)).2 []

/-- C1 (amended): within a refinement pass, processing an anchor never
decreases the floor's happiness *provided* the cached satisfaction is
at least the floor's current happiness when the anchor is processed —
the state `post_process_layer` establishes when it recomputes the
cache (first call on a floor) and that every commit re-establishes.
The conclusion also returns the re-established cache bound, so the
property carries from anchor to anchor through a pass. -/
theorem anchor_monotone_when_cache_current (f : Floor) (u : Nat)
    (hInv : FloorInv f) (hu : PopUid f u)
    (hcache : happiness f ≤ f.satisfaction) :
    happiness f ≤ happiness (f.process_anchor u) ∧
    happiness (f.process_anchor u) ≤ (f.process_anchor u).satisfaction :=
  (process_anchor_spec f u hInv hu).2.2.2.2.2.1 hcache

set_option maxRecDepth 2000000 in
/-- Witness for `anchor_monotone_when_cache_current`: `floor_m2s`
(minotaur and chest, cache equal to the true happiness) with the
minotaur (uid 25) as anchor. -/
theorem anchor_monotone_when_cache_current_witness :
    FloorInv floor_m2s ∧ PopUid floor_m2s 25 ∧
    happiness floor_m2s ≤ floor_m2s.satisfaction ∧
    (happiness floor_m2s ≤ happiness (floor_m2s.process_anchor 25) ∧
     happiness (floor_m2s.process_anchor 25) ≤
       (floor_m2s.process_anchor 25).satisfaction) :=
  ⟨by decide, by decide, by decide,
    anchor_monotone_when_cache_current floor_m2s 25 (by decide) (by decide)
      (by decide)⟩

theorem happiness_case_congr (f g : Floor)
    (hw : f.width = g.width) (hh : f.height = g.height)
    (ht : f.tiles = g.tiles) (hperm : f.populated.Perm g.populated)
    (t : BoardTile) : happiness_case f t = happiness_case g t := by
  have hslot : Floor.slot f = Floor.slot g := by
    funext x y
    simp [Floor.slot, ht]
  have hall : f.allSlots = g.allSlots := by
    simp [Floor.allSlots, ht]
  have hgt : Floor.get_tile f = Floor.get_tile g := by
    funext i
    simp [Floor.get_tile, hall]
  have hgtl : Floor.get_tile_list f = Floor.get_tile_list g := by
    funext i
    simp [Floor.get_tile_list, hall]
  have hrad : Floor.get_tiles_in_radius f = Floor.get_tiles_in_radius g := by
    funext cx cy r
    simp [Floor.get_tiles_in_radius, hall]
  have hgta : Floor.get_tile_at f = Floor.get_tile_at g := by
    funext x y
    simp only [Floor.get_tile_at, hw, hh, hslot]
  have hcin : count_identical_neighbors f = count_identical_neighbors g := by
    funext u r
    simp only [count_identical_neighbors, hw, hh, hgta]
  have hat : f.all_tiles.Perm g.all_tiles := by
    unfold Floor.all_tiles
    rw [show (fun c : Nat × Nat => f.slot c.1 c.2) =
      (fun c : Nat × Nat => g.slot c.1 c.2) by rw [hslot]]
    exact hperm.map _
  have hcwd : ∀ (sx sy : Nat) (i : Int) (d : Nat),
      count_within_distance f sx sy i d = count_within_distance g sx sy i d := by
    intro sx sy i d
    unfold count_within_distance
    exact (hat.filter _).length_eq
  have horb : ∀ orb : BoardTile, orb_happiness orb f = orb_happiness orb g := by
    intro orb
    unfold orb_happiness
    rw [hcwd, hcwd, hrad]
  unfold happiness_case
  rw [hgt, hgtl, hcin, horb t]

theorem happiness_eq_sum (f : Floor) :
    happiness f =
      (f.all_tiles.map (fun t => t.satisfaction + happiness_case f t)).sum := by
  suffices h : ∀ (l : List BoardTile) (a : Int),
      l.foldl (fun acc t => acc + t.satisfaction + happiness_case f t) a =
        a + (l.map (fun t => t.satisfaction + happiness_case f t)).sum by
    simpa using h f.all_tiles 0
  intro l
  induction l with
  | nil => intro a; simp
  | cons t l ih =>
    intro a
    rw [List.foldl_cons, ih, List.map_cons, List.sum_cons]
    ring

/-- C8: the scorer is deterministic and pure.  `happiness` is embedded
as a function of the floor value alone (the source performs no writes),
so two calls on an unmodified floor return the same integer and leave
the floor untouched by construction; this theorem proves the stronger
fact that the returned integer depends only on the board's content —
two floors with identical grids whose populated registries are
permutations of one another (the registry is a Python set, iterated in
arbitrary order) score identically. -/
theorem scorer_deterministic_pure (f g : Floor)
    (hw : f.width = g.width) (hh : f.height = g.height)
    (ht : f.tiles = g.tiles) (hperm : f.populated.Perm g.populated) :
    happiness f = happiness g := by
  have hslot : Floor.slot f = Floor.slot g := by
    funext x y
    simp [Floor.slot, ht]
  have hat : f.all_tiles.Perm g.all_tiles := by
    unfold Floor.all_tiles
    rw [show (fun c : Nat × Nat => f.slot c.1 c.2) =
      (fun c : Nat × Nat => g.slot c.1 c.2) by rw [hslot]]
    exact hperm.map _
  rw [happiness_eq_sum, happiness_eq_sum]
  rw [show (fun t : BoardTile => t.satisfaction + happiness_case f t) =
    (fun t : BoardTile => t.satisfaction + happiness_case g t) from
    funext fun t => by rw [happiness_case_congr f g hw hh ht hperm t]]
  exact (hat.map _).sum_eq

set_option maxRecDepth 1000000 in
/-- Witness for `scorer_deterministic_pure`: `floor_m2` against the
same floor with its populated registry reversed. -/
theorem scorer_deterministic_pure_witness :
    floor_m2.tiles = floor_m2r.tiles ∧
    floor_m2.populated.Perm floor_m2r.populated ∧
    happiness floor_m2 = happiness floor_m2r :=
  ⟨rfl, (List.reverse_perm _).symm,
    scorer_deterministic_pure floor_m2 floor_m2r rfl rfl rfl
      (List.reverse_perm _).symm⟩
